import Mathlib

/-!
Verification development for the Lingual compiler front end.

Each section embeds one component of the source tree as executable Lean
definitions (a TypeScript string is modelled as a `List Char`, the cursor
`this.position` is modelled by passing the remaining suffix of the input,
and mutation of `this.line` / `this.column` / accumulated diagnostics is
modelled by explicit state passing), and proves or refutes the documented
properties of that component.
-/

set_option maxRecDepth 8192
set_option linter.unusedVariables false

namespace Tokenizer

/- Embedding of `TokenType` (tokenizer/types.ts). -/
inductive TokenType where
  | NUMBER | STRING | IDENTIFIER
  | IF | ELSE | WHILE | FOR | FUNCTION | RETURN | VAR | LET | CONST
  | TRUE | FALSE | NULL | UNDEFINED
  | OPERATOR
  | LEFT_PAREN | RIGHT_PAREN | LEFT_BRACE | RIGHT_BRACE
  | LEFT_BRACKET | RIGHT_BRACKET | SEMICOLON | COMMA | DOT
  | EOF | ERROR
deriving DecidableEq, Repr

/- Embedding of the `Token` interface: `{ type, value, line, column }`. -/
structure Token where
  type : TokenType
  value : List Char
  line : Nat
  column : Nat
deriving DecidableEq, Repr

/- `Tokenizer.isDigit`. -/
def isDigit (c : Char) : Bool :=
  '0' ≤ c && c ≤ '9'

/- `Tokenizer.isLetter`. -/
def isLetter (c : Char) : Bool :=
  ('a' ≤ c && c ≤ 'z') || ('A' ≤ c && c ≤ 'Z') || c = '_'

/- The fixed operator table of `Tokenizer.isOperator`. -/
def operators : List (List Char) :=
  ["+", "-", "*", "/", "%", "=", "==", "!=", "<", "<=", ">", ">=",
   "&&", "||", "!", "+=", "-=", "*=", "/=", "%=", "++", "--", ":"].map String.toList

/- `Tokenizer.isOperator`. -/
def isOperator (s : List Char) : Bool :=
  operators.contains s

/- The fixed reserved-word table of `Tokenizer.getKeywordType` (a plain
   JS object used as a map). -/
def keywordTable : List (List Char × TokenType) :=
  [("if".toList, .IF), ("else".toList, .ELSE), ("while".toList, .WHILE),
   ("for".toList, .FOR), ("function".toList, .FUNCTION),
   ("return".toList, .RETURN), ("var".toList, .VAR), ("let".toList, .LET),
   ("const".toList, .CONST), ("true".toList, .TRUE),
   ("false".toList, .FALSE), ("null".toList, .NULL),
   ("undefined".toList, .UNDEFINED)]

/- `Tokenizer.getKeywordType`: `keywords[value] || null`. -/
def getKeywordType (value : List Char) : Option TokenType :=
  (keywordTable.find? (fun kv => kv.1 = value)).map (·.2)

/- The single-line-comment part of `skipWhitespace`: advance while the
   current character is not a newline.  The terminating newline itself is
   left for the next iteration of the outer loop. -/
def skipLineComment (line col : Nat) : List Char → Nat × Nat × List Char
  | [] => (line, col, [])
  | c :: rest =>
    if c = '\n' then (line, col, c :: rest)
    else skipLineComment line (col + 1) rest

/- The multi-line-comment scan of `skipWhitespace`, entered after the two
   characters `/*` have been consumed (`advance()` twice in the source).
   On `*/` the source advances twice and breaks.  On a newline it
   increments `line`, resets `column` to 1 and then still calls
   `advance()`, so the column after a newline inside a block comment
   is 2. -/
def skipBlockComment (line col : Nat) : List Char → Nat × Nat × List Char
  | [] => (line, col, [])
  | c :: rest =>
    if c = '*' ∧ rest.head? = some '/' then
      (line, col + 2, rest.tail)
    else if c = '\n' then skipBlockComment (line + 1) 2 rest
    else skipBlockComment line (col + 1) rest

theorem skipLineComment_length_le (line col : Nat) (cs : List Char) :
    (skipLineComment line col cs).2.2.length ≤ cs.length := by
  induction cs generalizing line col with
  | nil => simp [skipLineComment]
  | cons c rest ih =>
    simp only [skipLineComment]
    split
    · simp
    · exact Nat.le_succ_of_le (ih line (col + 1))

theorem skipBlockComment_length_le (line col : Nat) (cs : List Char) :
    (skipBlockComment line col cs).2.2.length ≤ cs.length := by
  induction cs generalizing line col with
  | nil => simp [skipBlockComment]
  | cons c rest ih =>
    simp only [skipBlockComment]
    split
    · simp only [List.length_cons, List.length_tail]
      omega
    · split
      · exact Nat.le_succ_of_le (ih (line + 1) 2)
      · exact Nat.le_succ_of_le (ih line (col + 1))

/- The whitespace-and-comment-skipping loop of the tokenizer.  The source
   treats `/` as a comment opener only when at least one more character
   follows.  When the line-comment path starts, the loop of the source
   begins at the first `/`, so both slashes are consumed by it before any
   further character; this embedding calls `skipLineComment` after those
   two characters with the column already advanced past them. -/
def skipWhitespace (line col : Nat) (cs : List Char) : Nat × Nat × List Char :=
  match cs with
  | [] => (line, col, [])
  | c :: rest =>
    if c = ' ' ∨ c = '\t' ∨ c = '\r' then
      skipWhitespace line (col + 1) rest
    else if c = '\n' then
      skipWhitespace (line + 1) 1 rest
    else if c = '/' ∧ rest.head? = some '/' then
      let r := skipLineComment line (col + 2) rest.tail
      skipWhitespace r.1 r.2.1 r.2.2
    else if c = '/' ∧ rest.head? = some '*' then
      let r := skipBlockComment line (col + 2) rest.tail
      skipWhitespace r.1 r.2.1 r.2.2
    else (line, col, c :: rest)
termination_by cs.length
decreasing_by
  all_goals simp_wf
  all_goals first
    | omega
    | (have h1 := skipLineComment_length_le line (col + 2) rest.tail
       have h3 := List.length_tail rest
       omega)
    | (have h2 := skipBlockComment_length_le line (col + 2) rest.tail
       have h3 := List.length_tail rest
       omega)

theorem skipWhitespace_length_le (line col : Nat) (cs : List Char) :
    (skipWhitespace line col cs).2.2.length ≤ cs.length := by
  induction line, col, cs using skipWhitespace.induct with
  | case1 line col =>
    simp [skipWhitespace]
  | case2 line col c rest h ih =>
    rw [skipWhitespace, if_pos h]
    exact Nat.le_succ_of_le ih
  | case3 line col rest h ih =>
    rw [skipWhitespace, if_neg h, if_pos rfl]
    exact Nat.le_succ_of_le ih
  | case4 line col c rest h hn hs r ih =>
    rw [skipWhitespace, if_neg h, if_neg hn, if_pos hs]
    have hr : r = skipLineComment line (col + 2) rest.tail := rfl
    rw [hr] at ih
    have h1 := skipLineComment_length_le line (col + 2) rest.tail
    have h3 := List.length_tail rest
    simp only [List.length_cons] at ih ⊢
    omega
  | case5 line col c rest h hn hs hb r ih =>
    rw [skipWhitespace, if_neg h, if_neg hn, if_neg hs, if_pos hb]
    have hr : r = skipBlockComment line (col + 2) rest.tail := rfl
    rw [hr] at ih
    have h2 := skipBlockComment_length_le line (col + 2) rest.tail
    have h3 := List.length_tail rest
    simp only [List.length_cons] at ih ⊢
    omega
  | case6 line col c rest h hn hs hb =>
    rw [skipWhitespace, if_neg h, if_neg hn, if_neg hs, if_neg hb]

/- `Tokenizer.readNumber`, entered with the current character a digit:
   the integer part, then optionally a `.` followed by fractional digits.
   Returns the token, the new column and the remaining input (the line
   never changes inside a number). -/
def readNumber (line col : Nat) (cs : List Char) : Token × Nat × List Char :=
  let intPart := cs.takeWhile isDigit
  let rest1 := cs.dropWhile isDigit
  match rest1 with
  | '.' :: rest2 =>
    let frac := rest2.takeWhile isDigit
    let rest3 := rest2.dropWhile isDigit
    (⟨.NUMBER, intPart ++ '.' :: frac, line, col⟩,
     col + intPart.length + 1 + frac.length, rest3)
  | _ => (⟨.NUMBER, intPart, line, col⟩, col + intPart.length, rest1)

/- `Tokenizer.readIdentifier`: maximal munch of letters and digits, then
   the keyword-table lookup (`keywordType || TokenType.IDENTIFIER`). -/
def readIdentifier (line col : Nat) (cs : List Char) : Token × Nat × List Char :=
  let value := cs.takeWhile (fun c => isLetter c || isDigit c)
  let rest := cs.dropWhile (fun c => isLetter c || isDigit c)
  (⟨(getKeywordType value).getD .IDENTIFIER, value, line, col⟩,
   col + value.length, rest)

/- The collection loop of `Tokenizer.readString`, entered after the
   opening quote: consume until the matching quote; a backslash consumes
   the following character too and keeps the escape sequence verbatim.
   Returns the collected value and the remainder (beginning with the
   closing quote, when there is one). -/
def readStringLoop (quote : Char) : List Char → List Char × List Char
  | [] => ([], [])
  | c :: rest =>
    if c = quote then ([], c :: rest)
    else if c = '\\' then
      match rest with
      | [] => ([], [])
      | d :: rest2 =>
        let r := readStringLoop quote rest2
        ('\\' :: d :: r.1, r.2)
    else
      let r := readStringLoop quote rest
      (c :: r.1, r.2)

/- `Tokenizer.readString`: skip the opening quote, collect the body, then
   skip the closing quote when the input has not run out.  `cs` is the
   input beginning with the opening quote; the new column is recovered
   from the number of consumed characters, since `advance()` is called
   exactly once per consumed character and never touches `line`. -/
def readString (line col : Nat) (quote : Char) (cs : List Char) : Token × Nat × List Char :=
  let r := readStringLoop quote cs.tail
  let rem :=
    match r.2 with
    | _ :: rest => rest
    | [] => []
  (⟨.STRING, r.1, line, col⟩, col + (cs.length - rem.length), rem)

/- The candidate-growing loop of `Tokenizer.readOperator`: try prefixes of
   length `i + 1` as long as `i < maxLength`, remembering the last prefix
   that is in the operator table and stopping at the first that is not. -/
def readOperatorLoop (cs : List Char) (maxLength i : Nat) (value : List Char) : List Char :=
  if i < maxLength then
    if isOperator (cs.take (i + 1)) then readOperatorLoop cs maxLength (i + 1) (cs.take (i + 1))
    else value
  else value
termination_by maxLength - i

/- `Tokenizer.readOperator`: greedy multi-character operator match over at
   most three characters, advancing by the length of the match. -/
def readOperator (line col : Nat) (cs : List Char) : Token × Nat × List Char :=
  let value := readOperatorLoop cs (min 3 cs.length) 0 []
  (⟨.OPERATOR, value, line, col⟩, col + value.length, cs.drop value.length)

/- The classification part of `Tokenizer.nextToken` after whitespace
   skipping, in source order: digit, letter, quote, operator, the
   bracket/punctuation characters, and finally the unknown-character
   case producing an `ERROR` token.  Returns
   `(token, line, column, remaining)`. -/
def dispatchToken (l c0 : Nat) (ch : Char) (rest : List Char) :
    Token × Nat × Nat × List Char :=
  if isDigit ch then
    let r := readNumber l c0 (ch :: rest)
    (r.1, l, r.2.1, r.2.2)
  else if isLetter ch then
    let r := readIdentifier l c0 (ch :: rest)
    (r.1, l, r.2.1, r.2.2)
  else if ch = '"' ∨ ch = '\'' then
    let r := readString l c0 ch (ch :: rest)
    (r.1, l, r.2.1, r.2.2)
  else if isOperator [ch] then
    let r := readOperator l c0 (ch :: rest)
    (r.1, l, r.2.1, r.2.2)
  else if ch = '(' then (⟨.LEFT_PAREN, [ch], l, c0⟩, l, c0 + 1, rest)
  else if ch = ')' then (⟨.RIGHT_PAREN, [ch], l, c0⟩, l, c0 + 1, rest)
  else if ch = '{' then (⟨.LEFT_BRACE, [ch], l, c0⟩, l, c0 + 1, rest)
  else if ch = '}' then (⟨.RIGHT_BRACE, [ch], l, c0⟩, l, c0 + 1, rest)
  else if ch = '[' then (⟨.LEFT_BRACKET, [ch], l, c0⟩, l, c0 + 1, rest)
  else if ch = ']' then (⟨.RIGHT_BRACKET, [ch], l, c0⟩, l, c0 + 1, rest)
  else if ch = ';' then (⟨.SEMICOLON, [ch], l, c0⟩, l, c0 + 1, rest)
  else if ch = ',' then (⟨.COMMA, [ch], l, c0⟩, l, c0 + 1, rest)
  else if ch = '.' then (⟨.DOT, [ch], l, c0⟩, l, c0 + 1, rest)
  else (⟨.ERROR, [ch], l, c0⟩, l, c0 + 1, rest)

/- `Tokenizer.nextToken`: skip whitespace and comments, then classify the
   current character.  `none` is the `null` that `nextToken` returns when
   skipping reached the end of the input. -/
def nextToken (line col : Nat) (cs : List Char) : Option Token × Nat × Nat × List Char :=
  match skipWhitespace line col cs with
  | (l, c0, []) => (none, l, c0, [])
  | (l, c0, ch :: rest) =>
    let r := dispatchToken l c0 ch rest
    (some r.1, r.2)

theorem readNumber_length_lt (line col : Nat) (c : Char) (rest : List Char)
    (h : isDigit c = true) :
    (readNumber line col (c :: rest)).2.2.length < (c :: rest).length := by
  have hdrop : (c :: rest).dropWhile isDigit = rest.dropWhile isDigit := by
    simp [List.dropWhile, h]
  have h1 : (rest.dropWhile isDigit).length ≤ rest.length :=
    (List.dropWhile_suffix isDigit).length_le
  simp only [readNumber, hdrop]
  split
  · rename_i rest2 heq
    have h2 : (rest2.dropWhile isDigit).length ≤ rest2.length :=
      (List.dropWhile_suffix isDigit).length_le
    have h3 : rest2.length + 1 = (rest.dropWhile isDigit).length := by
      rw [heq]; simp
    simp only [List.length_cons]
    omega
  · simp only [List.length_cons]
    omega

theorem readIdentifier_length_lt (line col : Nat) (c : Char) (rest : List Char)
    (h : isLetter c = true) :
    (readIdentifier line col (c :: rest)).2.2.length < (c :: rest).length := by
  have hdrop : (c :: rest).dropWhile (fun c => isLetter c || isDigit c) =
      rest.dropWhile (fun c => isLetter c || isDigit c) := by
    simp [List.dropWhile, h]
  have h1 : (rest.dropWhile (fun c => isLetter c || isDigit c)).length ≤ rest.length :=
    (List.dropWhile_suffix _).length_le
  simp only [readIdentifier, hdrop, List.length_cons]
  omega

theorem readStringLoop_length_le (quote : Char) (cs : List Char) :
    (readStringLoop quote cs).2.length ≤ cs.length := by
  induction cs using readStringLoop.induct quote with
  | case1 => simp [readStringLoop.eq_def]
  | case2 rest => simp [readStringLoop.eq_def]
  | case3 h => simp [readStringLoop.eq_def, h]
  | case4 c rest h ih =>
    rw [readStringLoop.eq_def]
    simp only [if_neg h]
    simp only [List.length_cons]
    norm_num
    omega
  | case5 c rest h hb ih =>
    rw [readStringLoop.eq_def]
    simp only [if_neg h, if_neg hb]
    simp only [List.length_cons]
    omega

theorem readString_length_lt (line col : Nat) (quote c : Char) (rest : List Char) :
    (readString line col quote (c :: rest)).2.2.length < (c :: rest).length := by
  have h1 := readStringLoop_length_le quote rest
  simp only [readString, List.tail_cons]
  split
  · rename_i rest2 heq
    have h2 : rest2.length + 1 = (readStringLoop quote rest).2.length := by
      rw [heq]; simp
    simp only [List.length_cons]
    omega
  · simp

theorem isOperator_length_pos (s : List Char) (h : isOperator s = true) :
    1 ≤ s.length := by
  cases s with
  | nil => simp [isOperator, operators] at h
  | cons a t => simp

theorem readOperatorLoop_length_pos (cs : List Char) (maxLength : Nat) :
    ∀ (i : Nat) (value : List Char), 1 ≤ value.length →
      1 ≤ (readOperatorLoop cs maxLength i value).length := by
  intro i value hv
  induction i, value using readOperatorLoop.induct cs maxLength with
  | case1 i value h hop ih =>
    rw [readOperatorLoop, if_pos h, if_pos hop]
    exact ih (isOperator_length_pos _ hop)
  | case2 i value h hop =>
    rw [readOperatorLoop, if_pos h, if_neg hop]
    exact hv
  | case3 i value h =>
    rw [readOperatorLoop, if_neg h]
    exact hv

theorem readOperator_length_lt (line col : Nat) (c : Char) (rest : List Char)
    (h : isOperator [c] = true) :
    (readOperator line col (c :: rest)).2.2.length < (c :: rest).length := by
  have hm : 0 < min 3 (c :: rest).length := by simp
  have hval : 1 ≤ (readOperatorLoop (c :: rest) (min 3 (c :: rest).length) 0 []).length := by
    have htake : (c :: rest).take (0 + 1) = [c] := by simp
    rw [readOperatorLoop, if_pos hm, htake, if_pos h]
    exact readOperatorLoop_length_pos _ _ _ _ (by simp)
  have hlen : 0 < (c :: rest).length := by simp
  simp only [readOperator, List.length_drop]
  omega

theorem dispatchToken_length_lt (l c0 : Nat) (ch : Char) (rest : List Char) :
    (dispatchToken l c0 ch rest).2.2.2.length < (ch :: rest).length := by
  unfold dispatchToken
  by_cases h1 : isDigit ch = true
  · rw [if_pos h1]; exact readNumber_length_lt l c0 ch rest h1
  rw [if_neg h1]
  by_cases h2 : isLetter ch = true
  · rw [if_pos h2]; exact readIdentifier_length_lt l c0 ch rest h2
  rw [if_neg h2]
  by_cases h3 : ch = '"' ∨ ch = '\''
  · rw [if_pos h3]; exact readString_length_lt l c0 ch ch rest
  rw [if_neg h3]
  by_cases h4 : isOperator [ch] = true
  · rw [if_pos h4]; exact readOperator_length_lt l c0 ch rest h4
  rw [if_neg h4]
  by_cases h5 : ch = '('
  · rw [if_pos h5]; simp
  rw [if_neg h5]
  by_cases h6 : ch = ')'
  · rw [if_pos h6]; simp
  rw [if_neg h6]
  by_cases h7 : ch = '{'
  · rw [if_pos h7]; simp
  rw [if_neg h7]
  by_cases h8 : ch = '}'
  · rw [if_pos h8]; simp
  rw [if_neg h8]
  by_cases h9 : ch = '['
  · rw [if_pos h9]; simp
  rw [if_neg h9]
  by_cases h10 : ch = ']'
  · rw [if_pos h10]; simp
  rw [if_neg h10]
  by_cases h11 : ch = ';'
  · rw [if_pos h11]; simp
  rw [if_neg h11]
  by_cases h12 : ch = ','
  · rw [if_pos h12]; simp
  rw [if_neg h12]
  by_cases h13 : ch = '.'
  · rw [if_pos h13]; simp
  rw [if_neg h13]
  simp

theorem nextToken_length_lt (line col : Nat) (cs : List Char) (h : cs ≠ []) :
    (nextToken line col cs).2.2.2.length < cs.length := by
  have hskip := skipWhitespace_length_le line col cs
  have hpos : 0 < cs.length := List.length_pos.mpr h
  rw [nextToken.eq_def]
  split
  · rename_i l c0 heq
    rw [heq] at hskip
    simpa using hpos
  · rename_i l c0 ch rest heq
    rw [heq] at hskip
    have hd := dispatchToken_length_lt l c0 ch rest
    simp only [List.length_cons] at hskip hd ⊢
    omega

/- `Tokenizer.tokenize`: the main loop, then the final EOF token carrying
   the current line and column. -/
def tokenizeGo (line col : Nat) (cs : List Char) : List Token :=
  match cs with
  | [] => [⟨.EOF, [], line, col⟩]
  | c :: rest =>
    let r := nextToken line col (c :: rest)
    match r.1 with
    | some t => t :: tokenizeGo r.2.1 r.2.2.1 r.2.2.2
    | none => tokenizeGo r.2.1 r.2.2.1 r.2.2.2
termination_by cs.length
decreasing_by
  all_goals
    have h1 := nextToken_length_lt line col (c :: rest) (by simp)
    simpa using h1

/- The `Tokenizer` is constructed with `line = 1`, `column = 1`. -/
def tokenize (source : List Char) : List Token :=
  tokenizeGo 1 1 source

theorem getKeywordType_ne_eof (v : List Char) :
    (getKeywordType v).getD .IDENTIFIER ≠ TokenType.EOF := by
  have h : ∀ t, getKeywordType v = some t → t ≠ TokenType.EOF := by
    intro t ht
    unfold getKeywordType at ht
    cases hf : keywordTable.find? (fun kv => kv.1 = v) with
    | none => rw [hf] at ht; simp at ht
    | some kv =>
      rw [hf] at ht
      simp only [Option.map_some', Option.some.injEq] at ht
      have hmem := List.mem_of_find?_eq_some hf
      have hall : ∀ kv ∈ keywordTable, kv.2 ≠ TokenType.EOF := by decide
      rw [← ht]
      exact hall kv hmem
  cases hk : getKeywordType v with
  | none => simp
  | some t => simpa using h t hk

theorem dispatchToken_type_ne_eof (l c0 : Nat) (ch : Char) (rest : List Char) :
    (dispatchToken l c0 ch rest).1.type ≠ TokenType.EOF := by
  unfold dispatchToken
  by_cases h1 : isDigit ch = true
  · rw [if_pos h1]; simp [readNumber]; split <;> simp
  rw [if_neg h1]
  by_cases h2 : isLetter ch = true
  · rw [if_pos h2]
    exact getKeywordType_ne_eof _
  rw [if_neg h2]
  by_cases h3 : ch = '"' ∨ ch = '\''
  · rw [if_pos h3]; simp [readString]
  rw [if_neg h3]
  by_cases h4 : isOperator [ch] = true
  · rw [if_pos h4]; simp [readOperator]
  rw [if_neg h4]
  by_cases h5 : ch = '('
  · rw [if_pos h5]; simp
  rw [if_neg h5]
  by_cases h6 : ch = ')'
  · rw [if_pos h6]; simp
  rw [if_neg h6]
  by_cases h7 : ch = '{'
  · rw [if_pos h7]; simp
  rw [if_neg h7]
  by_cases h8 : ch = '}'
  · rw [if_pos h8]; simp
  rw [if_neg h8]
  by_cases h9 : ch = '['
  · rw [if_pos h9]; simp
  rw [if_neg h9]
  by_cases h10 : ch = ']'
  · rw [if_pos h10]; simp
  rw [if_neg h10]
  by_cases h11 : ch = ';'
  · rw [if_pos h11]; simp
  rw [if_neg h11]
  by_cases h12 : ch = ','
  · rw [if_pos h12]; simp
  rw [if_neg h12]
  by_cases h13 : ch = '.'
  · rw [if_pos h13]; simp
  rw [if_neg h13]
  simp

theorem nextToken_some_ne_eof (line col : Nat) (cs : List Char) (t : Token)
    (h : (nextToken line col cs).1 = some t) : t.type ≠ TokenType.EOF := by
  rw [nextToken.eq_def] at h
  split at h
  · simp at h
  · rename_i l c0 ch rest heq
    simp only [Option.some.injEq] at h
    rw [← h]
    exact dispatchToken_type_ne_eof l c0 ch rest

theorem tokenizeGo_eof_structure (line col : Nat) (cs : List Char) :
    ∃ pre lastTok, tokenizeGo line col cs = pre ++ [lastTok] ∧
      lastTok.type = TokenType.EOF ∧ ∀ t ∈ pre, t.type ≠ TokenType.EOF := by
  induction line, col, cs using tokenizeGo.induct with
  | case1 line col =>
    exact ⟨[], ⟨.EOF, [], line, col⟩, by rw [tokenizeGo]; rfl, rfl, by simp⟩
  | case2 line col c rest r t hr ih =>
    obtain ⟨pre, lastTok, h1, h2, h3⟩ := ih
    refine ⟨t :: pre, lastTok, ?_, h2, ?_⟩
    · rw [tokenizeGo]
      have hrr : r = nextToken line col (c :: rest) := rfl
      rw [← hrr, hr, h1]
      simp
    · intro u hu
      rcases List.mem_cons.mp hu with h | h
      · subst h
        have hrr : r = nextToken line col (c :: rest) := rfl
        exact nextToken_some_ne_eof line col (c :: rest) u (by rw [← hrr, hr])
      · exact h3 u h
  | case3 line col c rest r hr ih =>
    obtain ⟨pre, lastTok, h1, h2, h3⟩ := ih
    refine ⟨pre, lastTok, ?_, h2, h3⟩
    rw [tokenizeGo]
    have hrr : r = nextToken line col (c :: rest) := rfl
    rw [← hrr, hr, h1]

/-- C1: for every input string, `tokenize` terminates (it is a total Lean
function), returns a non-empty token list whose last element is the single
end-of-input token, and an unrecognized character (such as `#`) yields an
Error-kind token instead of aborting the scan. -/
theorem tokenize_total_last_eof_unique :
    (∀ s : List Char,
      tokenize s ≠ [] ∧
      ((tokenize s).map Token.type).getLast? = some TokenType.EOF ∧
      ((tokenize s).map Token.type).count TokenType.EOF = 1) ∧
    (tokenize ['#']).map Token.type = [TokenType.ERROR, TokenType.EOF] := by
  constructor
  · intro s
    obtain ⟨pre, lastTok, h1, h2, h3⟩ := tokenizeGo_eof_structure 1 1 s
    have heq : tokenize s = pre ++ [lastTok] := h1
    refine ⟨by simp [heq], ?_, ?_⟩
    · rw [heq]
      simp [h2]
    · rw [heq]
      simp only [List.map_append, List.map_cons, List.map_nil]
      rw [List.count_append]
      have hzero : (pre.map Token.type).count TokenType.EOF = 0 := by
        rw [List.count_eq_zero]
        intro hmem
        obtain ⟨t, ht, hteq⟩ := List.mem_map.mp hmem
        exact h3 t ht hteq
      rw [hzero, h2]
      simp
  · simp [tokenize, tokenizeGo, nextToken, skipWhitespace, dispatchToken,
      isDigit, isLetter, isOperator, operators]

end Tokenizer

namespace Parser

/-!
Embedding of the recursive-descent parser (`Parser`, parser/parser.ts).
Node `start`/`end` number fields are named `startPos`/`endPos` (`end` is a
reserved word in Lean).  Every parsing function takes a fuel argument
consumed at entry, so that the embedding is total; the TypeScript parser
has no fuel, but on every input where it terminates the embedding agrees
with it for every sufficiently large fuel.  `Except.error` models a thrown
`Error`.
-/

open Tokenizer (Token TokenType)

/- The literal values a `LiteralNode` can hold: `parsePrimary` stores the
   raw token text (a JS string) for NUMBER and STRING tokens, `true` /
   `false` for the keywords, and `null`. -/
inductive LitValue where
  | str (s : List Char)
  | bool (b : Bool)
  | null
deriving DecidableEq, Repr

/- `ExpressionNode` variants. -/
inductive ExprNode where
  | BinaryExpr (operator : List Char) (left right : ExprNode) (startPos endPos : Nat)
  | UnaryExpr (operator : List Char) (argument : ExprNode) (startPos endPos : Nat)
  | CallExpr (callee : ExprNode) (args : List ExprNode) (startPos endPos : Nat)
  | MemberExpr (object property : ExprNode) (computed : Bool) (startPos endPos : Nat)
  | Identifier (name : List Char) (startPos endPos : Nat)
  | Literal (value : LitValue) (startPos endPos : Nat)

def ExprNode.start : ExprNode → Nat
  | .BinaryExpr _ _ _ s _ => s
  | .UnaryExpr _ _ s _ => s
  | .CallExpr _ _ s _ => s
  | .MemberExpr _ _ _ s _ => s
  | .Identifier _ s _ => s
  | .Literal _ s _ => s

def ExprNode.stop : ExprNode → Nat
  | .BinaryExpr _ _ _ _ e => e
  | .UnaryExpr _ _ _ e => e
  | .CallExpr _ _ _ e => e
  | .MemberExpr _ _ _ _ e => e
  | .Identifier _ _ e => e
  | .Literal _ _ e => e

/- `StatementNode` variants.  A `for` initializer is a variable
   declaration, an expression, or absent. -/
inductive StmtNode where
  | FunctionDecl (name : List Char) (params : List (List Char))
      (body : StmtNode) (startPos endPos : Nat)
  | VariableDecl (kind name : List Char) (init : Option ExprNode)
      (startPos endPos : Nat)
  | ExpressionStmt (expression : ExprNode) (startPos endPos : Nat)
  | IfStmt (test : ExprNode) (consequent : StmtNode)
      (alternate : Option StmtNode) (startPos endPos : Nat)
  | WhileStmt (test : ExprNode) (body : StmtNode) (startPos endPos : Nat)
  | ForStmt (init : Option (StmtNode ⊕ ExprNode)) (test update : Option ExprNode)
      (body : StmtNode) (startPos endPos : Nat)
  | ReturnStmt (argument : Option ExprNode) (startPos endPos : Nat)
  | BlockStmt (body : List StmtNode) (startPos endPos : Nat)
  | TypeDecl (name : List Char)
      (fields : List (List Char × List Char × Nat × Nat)) (startPos endPos : Nat)

/- `ProgramNode`. -/
structure ProgramNode where
  body : List StmtNode
  startPos : Nat
  endPos : Nat

/- The parser state: the token array and `this.current`. -/
structure PState where
  tokens : List Token
  current : Nat
deriving Repr

/- Reading past the end of the token array yields `undefined` in JS; the
   parser never does so because every token list it is given ends with
   EOF, and `isAtEnd` stops it there.  The default token stands for that
   unreachable read. -/
def defaultToken : Token := ⟨.EOF, [], 0, 0⟩

def peek (st : PState) : Token := st.tokens.getD st.current defaultToken

def previous (st : PState) : Token := st.tokens.getD (st.current - 1) defaultToken

def isAtEnd (st : PState) : Bool := (peek st).type = .EOF

/- `advance`: step forward unless at end, and return `previous()` of the
   new state (the token just consumed). -/
def advance (st : PState) : Token × PState :=
  let st2 := if ¬ isAtEnd st then { st with current := st.current + 1 } else st
  (previous st2, st2)

def check (ty : TokenType) (st : PState) : Bool :=
  if isAtEnd st then false else (peek st).type = ty

/- `match(...types)`: on the first type whose check succeeds the token is
   consumed and `true` is returned. -/
def matchTokens (tys : List TokenType) (st : PState) : Bool × PState :=
  match tys with
  | [] => (false, st)
  | ty :: rest => if check ty st then (true, (advance st).2) else matchTokens rest st

/- `this.throwError`: `new Error(msg + ' (at line L, column C)')`. -/
def throwErr (t : Token) (msg : String) : Except String α :=
  .error (msg ++ " (at line " ++ toString t.line ++ ", column " ++ toString t.column ++ ")")

/- `consume(type, message)`: return the consumed token or throw with the
   offending token's position. -/
def consume (ty : TokenType) (msg : String) (st : PState) :
    Except String (Token × PState) :=
  if check ty st then .ok (advance st) else throwErr (peek st) msg

/- A single quote character, used in error-message interpolation. -/
def sq : String := String.singleton (Char.ofNat 39)

/- The error used when the fuel of the embedding runs out; no theorem
   below relies on it. -/
def fuelError : Except String α := .error "EMBEDDING OUT OF FUEL"

mutual

/- `parseExpression`. -/
def parseExpression : Nat → PState → Except String (ExprNode × PState)
  | 0, _ => fuelError
  | f + 1, st => parseAssignment f st

/- `parseAssignment`.  Note that `this.match(OPERATOR)` consumes an
   operator token even when its value then turns out not to be `=`. -/
def parseAssignment : Nat → PState → Except String (ExprNode × PState)
  | 0, _ => fuelError
  | f + 1, st => do
    let (expr, st) ← parseOr f st
    let (m, st) := matchTokens [.OPERATOR] st
    if m ∧ (previous st).value = "=".toList then
      let (value, st) ← parseAssignment f st
      match expr with
      | .Identifier _ _ _ =>
        .ok (.BinaryExpr "=".toList expr value expr.start value.stop, st)
      | _ => .error "Invalid assignment target"
    else
      .ok (expr, st)

/- `parseOr`'s `while` loop (and the analogous loops below): the source
   matches an OPERATOR token and then inspects its value, consuming the
   token even when the value does not belong to this precedence level. -/
def parseOr : Nat → PState → Except String (ExprNode × PState)
  | 0, _ => fuelError
  | f + 1, st => do
    let (expr, st) ← parseAnd f st
    parseOrLoop f expr st

def parseOrLoop : Nat → ExprNode → PState → Except String (ExprNode × PState)
  | 0, _, _ => fuelError
  | f + 1, expr, st => do
    let (m, st) := matchTokens [.OPERATOR] st
    if m ∧ (previous st).value = "||".toList then
      let op := previous st
      let (right, st) ← parseAnd f st
      parseOrLoop f (.BinaryExpr op.value expr right expr.start right.stop) st
    else
      .ok (expr, st)

def parseAnd : Nat → PState → Except String (ExprNode × PState)
  | 0, _ => fuelError
  | f + 1, st => do
    let (expr, st) ← parseEquality f st
    parseAndLoop f expr st

def parseAndLoop : Nat → ExprNode → PState → Except String (ExprNode × PState)
  | 0, _, _ => fuelError
  | f + 1, expr, st => do
    let (m, st) := matchTokens [.OPERATOR] st
    if m ∧ (previous st).value = "&&".toList then
      let op := previous st
      let (right, st) ← parseEquality f st
      parseAndLoop f (.BinaryExpr op.value expr right expr.start right.stop) st
    else
      .ok (expr, st)

def parseEquality : Nat → PState → Except String (ExprNode × PState)
  | 0, _ => fuelError
  | f + 1, st => do
    let (expr, st) ← parseComparison f st
    parseEqualityLoop f expr st

def parseEqualityLoop : Nat → ExprNode → PState → Except String (ExprNode × PState)
  | 0, _, _ => fuelError
  | f + 1, expr, st => do
    let (m, st) := matchTokens [.OPERATOR] st
    if m ∧ ((previous st).value = "!=".toList ∨ (previous st).value = "==".toList) then
      let op := previous st
      let (right, st) ← parseComparison f st
      parseEqualityLoop f (.BinaryExpr op.value expr right expr.start right.stop) st
    else
      .ok (expr, st)

def parseComparison : Nat → PState → Except String (ExprNode × PState)
  | 0, _ => fuelError
  | f + 1, st => do
    let (expr, st) ← parseTerm f st
    parseComparisonLoop f expr st

def parseComparisonLoop : Nat → ExprNode → PState → Except String (ExprNode × PState)
  | 0, _, _ => fuelError
  | f + 1, expr, st => do
    let (m, st) := matchTokens [.OPERATOR] st
    if m ∧ ((previous st).value = ">".toList ∨ (previous st).value = ">=".toList ∨
            (previous st).value = "<".toList ∨ (previous st).value = "<=".toList) then
      let op := previous st
      let (right, st) ← parseTerm f st
      parseComparisonLoop f (.BinaryExpr op.value expr right expr.start right.stop) st
    else
      .ok (expr, st)

/- `parseTerm`. -/
def parseTerm : Nat → PState → Except String (ExprNode × PState)
  | 0, _ => fuelError
  | f + 1, st => do
    let (expr, st) ← parseFactor f st
    parseTermLoop f expr st

def parseTermLoop : Nat → ExprNode → PState → Except String (ExprNode × PState)
  | 0, _, _ => fuelError
  | f + 1, expr, st => do
    let (m, st) := matchTokens [.OPERATOR] st
    if m ∧ ((previous st).value = "-".toList ∨ (previous st).value = "+".toList) then
      let op := previous st
      let (right, st) ← parseFactor f st
      parseTermLoop f (.BinaryExpr op.value expr right expr.start right.stop) st
    else
      .ok (expr, st)

/- `parseFactor`. -/
def parseFactor : Nat → PState → Except String (ExprNode × PState)
  | 0, _ => fuelError
  | f + 1, st => do
    let (expr, st) ← parseUnary f st
    parseFactorLoop f expr st

def parseFactorLoop : Nat → ExprNode → PState → Except String (ExprNode × PState)
  | 0, _, _ => fuelError
  | f + 1, expr, st => do
    let (m, st) := matchTokens [.OPERATOR] st
    if m ∧ ((previous st).value = "/".toList ∨ (previous st).value = "*".toList) then
      let op := previous st
      let (right, st) ← parseUnary f st
      parseFactorLoop f (.BinaryExpr op.value expr right expr.start right.stop) st
    else
      .ok (expr, st)

/- `parseUnary`: after `match(OPERATOR)` the source inspects
   `this.peek().value` (the *next* token) and, when it is `!` or `-`,
   takes `this.advance()` as the operator. -/
def parseUnary : Nat → PState → Except String (ExprNode × PState)
  | 0, _ => fuelError
  | f + 1, st => do
    let (m, st) := matchTokens [.OPERATOR] st
    if m ∧ ((peek st).value = "!".toList ∨ (peek st).value = "-".toList) then
      let (op, st) := advance st
      let (right, st) ← parseUnary f st
      .ok (.UnaryExpr op.value right op.line right.stop, st)
    else
      parseCall f st

/- `parseCall`: a primary expression followed by any number of call and
   member suffixes. -/
def parseCall : Nat → PState → Except String (ExprNode × PState)
  | 0, _ => fuelError
  | f + 1, st => do
    let (expr, st) ← parsePrimary f st
    parseCallLoop f expr st

def parseCallLoop : Nat → ExprNode → PState → Except String (ExprNode × PState)
  | 0, _, _ => fuelError
  | f + 1, expr, st => do
    let (m, st) := matchTokens [.LEFT_PAREN] st
    if m then
      let (expr2, st) ← finishCall f expr st
      parseCallLoop f expr2 st
    else
      let (md, st) := matchTokens [.DOT] st
      if md then
        let (_, st) ← consume .IDENTIFIER "Expected property name after ." st
        let name := previous st
        parseCallLoop f
          (.MemberExpr expr (.Identifier name.value name.line name.column)
            false expr.start name.column) st
      else
        .ok (expr, st)

/- `finishCall`: the argument list and closing parenthesis; `end` is the
   token index `this.current`. -/
def finishCall : Nat → ExprNode → PState → Except String (ExprNode × PState)
  | 0, _, _ => fuelError
  | f + 1, callee, st => do
    if check .RIGHT_PAREN st then
      let (_, st) ← consume .RIGHT_PAREN "Expected ) after arguments" st
      .ok (.CallExpr callee [] callee.start st.current, st)
    else
      let (args, st) ← parseArgsLoop f st
      let (_, st) ← consume .RIGHT_PAREN "Expected ) after arguments" st
      .ok (.CallExpr callee args callee.start st.current, st)

/- The `do { args.push(parseExpression()) } while (match(COMMA))` loop of
   `finishCall`. -/
def parseArgsLoop : Nat → PState → Except String (List ExprNode × PState)
  | 0, _ => fuelError
  | f + 1, st => do
    let (arg, st) ← parseExpression f st
    let (m, st) := matchTokens [.COMMA] st
    if m then
      let (rest, st) ← parseArgsLoop f st
      .ok (arg :: rest, st)
    else
      .ok ([arg], st)

/- `parsePrimary`.  A literal node takes `previous().line` as `start` and
   `previous().column` as `end`. -/
def parsePrimary : Nat → PState → Except String (ExprNode × PState)
  | 0, _ => fuelError
  | f + 1, st => do
    let (mf, st) := matchTokens [.FALSE] st
    if mf then
      .ok (.Literal (.bool false) (previous st).line (previous st).column, st)
    else
    let (mt, st) := matchTokens [.TRUE] st
    if mt then
      .ok (.Literal (.bool true) (previous st).line (previous st).column, st)
    else
    let (mn, st) := matchTokens [.NULL] st
    if mn then
      .ok (.Literal .null (previous st).line (previous st).column, st)
    else
    let (ml, st) := matchTokens [.NUMBER, .STRING] st
    if ml then
      .ok (.Literal (.str (previous st).value) (previous st).line (previous st).column, st)
    else
    let (mi, st) := matchTokens [.IDENTIFIER] st
    if mi then
      .ok (.Identifier (previous st).value (previous st).line (previous st).column, st)
    else
    let (mp, st) := matchTokens [.LEFT_PAREN] st
    if mp then
      let (expr, st) ← parseExpression f st
      let (_, st) ← consume .RIGHT_PAREN "Expected ) after expression" st
      .ok (expr, st)
    else
      .error "Unexpected token"

end

mutual

/- `parseStatement`: first-token dispatch.  The `IDENTIFIER` case falls
   through to the default unless the token text is `type`. -/
def parseStatement : Nat → PState → Except String (StmtNode × PState)
  | 0, _ => fuelError
  | f + 1, st =>
    match (peek st).type with
    | .FUNCTION => parseFunctionDeclaration f st
    | .VAR | .LET | .CONST => parseVariableDeclaration f st
    | .IF => parseIfStatement f st
    | .WHILE => parseWhileStatement f st
    | .FOR => parseForStatement f st
    | .RETURN => parseReturnStatement f st
    | .LEFT_BRACE => parseBlockStatement f st
    | .IDENTIFIER =>
      if (peek st).value = "type".toList then parseTypeDeclaration f st
      else parseExpressionStatement f st
    | _ => parseExpressionStatement f st

def parseFunctionDeclaration : Nat → PState → Except String (StmtNode × PState)
  | 0, _ => fuelError
  | f + 1, st => do
    let start := st.current
    let (_, st) ← consume .FUNCTION "Expected function keyword" st
    let (nameTok, st) ← consume .IDENTIFIER "Expected function name" st
    let (_, st) ← consume .LEFT_PAREN "Expected ( after function name" st
    let (params, st) ←
      if check .RIGHT_PAREN st then .ok (([] : List (List Char)), st)
      else parseParamsLoop f st
    let (_, st) ← consume .RIGHT_PAREN "Expected ) after parameters" st
    -- Optional return type annotation; `match(OPERATOR)` consumes an
    -- operator token even when it is not `:`.
    let (m, st) := matchTokens [.OPERATOR] st
    let st ←
      if m ∧ (previous st).value = ":".toList then
        if check .IDENTIFIER st then
          let (_, st) := advance st
          if check .LEFT_BRACKET st then
            let (_, st) := advance st
            if check .RIGHT_BRACKET st then
              let (_, st) := advance st
              pure st
            else pure st
          else pure st
        else pure st
      else pure st
    let (body, st) ← parseBlockStatement f st
    .ok (.FunctionDecl nameTok.value params body start st.current, st)

/- The parameter `do ... while (match(COMMA))` loop. -/
def parseParamsLoop : Nat → PState → Except String (List (List Char) × PState)
  | 0, _ => fuelError
  | f + 1, st => do
    let (p, st) ← consume .IDENTIFIER "Expected parameter name" st
    let (m, st) := matchTokens [.COMMA] st
    if m then
      let (rest, st) ← parseParamsLoop f st
      .ok (p.value :: rest, st)
    else
      .ok ([p.value], st)

def parseVariableDeclaration : Nat → PState → Except String (StmtNode × PState)
  | 0, _ => fuelError
  | f + 1, st => do
    let start := st.current
    let (kindTok, st) := advance st
    let (nameTok, st) ← consume .IDENTIFIER "Expected variable name" st
    let (init, st) ← do
      let (m, st) := matchTokens [.OPERATOR] st
      if m ∧ (previous st).value = "=".toList then
        let (e, st) ← parseExpression f st
        .ok (some e, st)
      else
        .ok ((none : Option ExprNode), st)
    let (_, st) ← consume .SEMICOLON "Expected ; after variable declaration" st
    .ok (.VariableDecl kindTok.value nameTok.value init start st.current, st)

def parseIfStatement : Nat → PState → Except String (StmtNode × PState)
  | 0, _ => fuelError
  | f + 1, st => do
    let start := st.current
    let (_, st) ← consume .IF "Expected if keyword" st
    let (_, st) ← consume .LEFT_PAREN "Expected ( after if" st
    let (test, st) ← parseExpression f st
    let (_, st) ← consume .RIGHT_PAREN "Expected ) after if condition" st
    let (consequent, st) ← parseStatement f st
    let (melse, st) := matchTokens [.ELSE] st
    if melse then
      let (alternate, st) ← parseStatement f st
      .ok (.IfStmt test consequent (some alternate) start st.current, st)
    else
      .ok (.IfStmt test consequent none start st.current, st)

def parseWhileStatement : Nat → PState → Except String (StmtNode × PState)
  | 0, _ => fuelError
  | f + 1, st => do
    let start := st.current
    let (_, st) ← consume .WHILE "Expected while keyword" st
    let (_, st) ← consume .LEFT_PAREN "Expected ( after while" st
    let (test, st) ← parseExpression f st
    let (_, st) ← consume .RIGHT_PAREN "Expected ) after while condition" st
    let (body, st) ← parseStatement f st
    .ok (.WhileStmt test body start st.current, st)

/- `parseForStatement`.  When the initializer starts with `var`/`let`/
   `const`, `this.match(...)` has already consumed that keyword before
   `parseVariableDeclaration` runs (which then takes the *next* token as
   the binding kind) — reproduced as in the source. -/
def parseForStatement : Nat → PState → Except String (StmtNode × PState)
  | 0, _ => fuelError
  | f + 1, st => do
    let start := st.current
    let (_, st) ← consume .FOR "Expected for keyword" st
    let (_, st) ← consume .LEFT_PAREN "Expected ( after for" st
    let (init, st) ← do
      if check .SEMICOLON st then .ok ((none : Option (StmtNode ⊕ ExprNode)), st)
      else
        let (m, st) := matchTokens [.VAR, .LET, .CONST] st
        if m then
          let (d, st) ← parseVariableDeclaration f st
          .ok (some (Sum.inl d), st)
        else
          let (e, st) ← parseExpression f st
          let (_, st) ← consume .SEMICOLON "Expected ; after for loop initializer" st
          .ok (some (Sum.inr e), st)
    let (test, st) ← do
      if check .SEMICOLON st then .ok ((none : Option ExprNode), st)
      else
        let (e, st) ← parseExpression f st
        .ok (some e, st)
    let (_, st) ← consume .SEMICOLON "Expected ; after for loop condition" st
    let (update, st) ← do
      if check .RIGHT_PAREN st then .ok ((none : Option ExprNode), st)
      else
        let (e, st) ← parseExpression f st
        .ok (some e, st)
    let (_, st) ← consume .RIGHT_PAREN "Expected ) after for loop clauses" st
    let (body, st) ← parseStatement f st
    .ok (.ForStmt init test update body start st.current, st)

def parseReturnStatement : Nat → PState → Except String (StmtNode × PState)
  | 0, _ => fuelError
  | f + 1, st => do
    let start := st.current
    let (_, st) ← consume .RETURN "Expected return keyword" st
    let (argument, st) ← do
      if check .SEMICOLON st then .ok ((none : Option ExprNode), st)
      else
        let (e, st) ← parseExpression f st
        .ok (some e, st)
    let (_, st) ← consume .SEMICOLON "Expected ; after return statement" st
    .ok (.ReturnStmt argument start st.current, st)

def parseBlockStatement : Nat → PState → Except String (StmtNode × PState)
  | 0, _ => fuelError
  | f + 1, st => do
    let start := st.current
    let (_, st) ← consume .LEFT_BRACE "Expected \x7b" st
    let (body, st) ← parseBlockBody f st
    let (_, st) ← consume .RIGHT_BRACE "Expected \x7d" st
    .ok (.BlockStmt body start st.current, st)

/- The `while (!check(RIGHT_BRACE) && !isAtEnd())` loop of a block. -/
def parseBlockBody : Nat → PState → Except String (List StmtNode × PState)
  | 0, _ => fuelError
  | f + 1, st => do
    if ¬ check .RIGHT_BRACE st ∧ ¬ isAtEnd st then
      let (stmt, st) ← parseStatement f st
      let (rest, st) ← parseBlockBody f st
      .ok (stmt :: rest, st)
    else
      .ok ([], st)

def parseExpressionStatement : Nat → PState → Except String (StmtNode × PState)
  | 0, _ => fuelError
  | f + 1, st => do
    let start := st.current
    let (expression, st) ← parseExpression f st
    let (_, st) ← consume .SEMICOLON "Expected ; after expression" st
    .ok (.ExpressionStmt expression start st.current, st)

def parseTypeDeclaration : Nat → PState → Except String (StmtNode × PState)
  | 0, _ => fuelError
  | f + 1, st => do
    let start := st.current
    let (typeTok, st) ← consume .IDENTIFIER ("Expected " ++ sq ++ "type" ++ sq ++ " keyword") st
    if typeTok.value ≠ "type".toList then
      throwErr typeTok ("Expected " ++ sq ++ "type" ++ sq ++ " keyword")
    else
    let (nameTok, st) ← consume .IDENTIFIER "Expected type name" st
    let (_, st) ← consume .LEFT_BRACE "Expected \x7b after type name" st
    let (fields, st) ← parseTypeFieldsLoop f st
    let (_, st) ← consume .RIGHT_BRACE "Expected \x7d after type fields" st
    .ok (.TypeDecl nameTok.value fields start st.current, st)

/- The field loop of a type declaration: `name : Type` pairs with an
   optional semicolon after each field. -/
def parseTypeFieldsLoop : Nat → PState →
    Except String (List (List Char × List Char × Nat × Nat) × PState)
  | 0, _ => fuelError
  | f + 1, st => do
    if ¬ check .RIGHT_BRACE st ∧ ¬ isAtEnd st then
      let (fieldNameTok, st) ← consume .IDENTIFIER "Expected field name in type" st
      let (_, st) ← consume .OPERATOR
        ("Expected : after field name " ++ sq ++ String.mk fieldNameTok.value ++ sq) st
      let (fieldTypeTok, st) ← consume .IDENTIFIER
        ("Expected type for field " ++ sq ++ String.mk fieldNameTok.value ++ sq) st
      let st := if check .SEMICOLON st then (advance st).2 else st
      let (rest, st) ← parseTypeFieldsLoop f st
      .ok ((fieldNameTok.value, fieldTypeTok.value, fieldNameTok.line,
            fieldNameTok.column) :: rest, st)
    else
      .ok ([], st)

end

/- The `while (!isAtEnd())` loop of `parse()`. -/
def parseProgramBody : Nat → PState → Except String (List StmtNode × PState)
  | 0, _ => fuelError
  | f + 1, st => do
    if ¬ isAtEnd st then
      let (stmt, st) ← parseStatement f st
      let (rest, st) ← parseProgramBody f st
      .ok (stmt :: rest, st)
    else
      .ok ([], st)

/- `parse()`: the program node; `end` is the last token's column (or 0
   when it is absent or zero, from `?.column || 0`). -/
def parse (fuel : Nat) (tokens : List Token) : Except String ProgramNode := do
  let st : PState := ⟨tokens, 0⟩
  let (body, _) ← parseProgramBody fuel st
  .ok ⟨body, 0, ((tokens.getLast?).map (·.column)).getD 0⟩

/- Lexing followed by parsing, as the sub-project pipeline composes them
   (`new Parser(new Tokenizer(source).tokenize()).parse()`). -/
def parseSource (fuel : Nat) (source : String) : Except String ProgramNode :=
  parse fuel (Tokenizer.tokenize source.toList)

theorem tokens_1p2t3 : Tokenizer.tokenize "1 + 2 * 3".toList =
    [⟨.NUMBER, ['1'], 1, 1⟩, ⟨.OPERATOR, ['+'], 1, 3⟩, ⟨.NUMBER, ['2'], 1, 5⟩,
     ⟨.OPERATOR, ['*'], 1, 7⟩, ⟨.NUMBER, ['3'], 1, 9⟩, ⟨.EOF, [], 1, 10⟩] := by
  have h : "1 + 2 * 3".toList = ['1', ' ', '+', ' ', '2', ' ', '*', ' ', '3'] := rfl
  rw [h]
  simp [Tokenizer.tokenize, Tokenizer.tokenizeGo, Tokenizer.nextToken,
    Tokenizer.skipWhitespace, Tokenizer.dispatchToken, Tokenizer.isDigit,
    Tokenizer.isLetter, Tokenizer.isOperator, Tokenizer.operators,
    Tokenizer.readNumber, Tokenizer.readOperator, Tokenizer.readOperatorLoop]

theorem tokens_1t2p3 : Tokenizer.tokenize "1 * 2 + 3".toList =
    [⟨.NUMBER, ['1'], 1, 1⟩, ⟨.OPERATOR, ['*'], 1, 3⟩, ⟨.NUMBER, ['2'], 1, 5⟩,
     ⟨.OPERATOR, ['+'], 1, 7⟩, ⟨.NUMBER, ['3'], 1, 9⟩, ⟨.EOF, [], 1, 10⟩] := by
  have h : "1 * 2 + 3".toList = ['1', ' ', '*', ' ', '2', ' ', '+', ' ', '3'] := rfl
  rw [h]
  simp [Tokenizer.tokenize, Tokenizer.tokenizeGo, Tokenizer.nextToken,
    Tokenizer.skipWhitespace, Tokenizer.dispatchToken, Tokenizer.isDigit,
    Tokenizer.isLetter, Tokenizer.isOperator, Tokenizer.operators,
    Tokenizer.readNumber, Tokenizer.readOperator, Tokenizer.readOperatorLoop]

theorem tokens_1m2m3 : Tokenizer.tokenize "1 - 2 - 3".toList =
    [⟨.NUMBER, ['1'], 1, 1⟩, ⟨.OPERATOR, ['-'], 1, 3⟩, ⟨.NUMBER, ['2'], 1, 5⟩,
     ⟨.OPERATOR, ['-'], 1, 7⟩, ⟨.NUMBER, ['3'], 1, 9⟩, ⟨.EOF, [], 1, 10⟩] := by
  have h : "1 - 2 - 3".toList = ['1', ' ', '-', ' ', '2', ' ', '-', ' ', '3'] := rfl
  rw [h]
  simp [Tokenizer.tokenize, Tokenizer.tokenizeGo, Tokenizer.nextToken,
    Tokenizer.skipWhitespace, Tokenizer.dispatchToken, Tokenizer.isDigit,
    Tokenizer.isLetter, Tokenizer.isOperator, Tokenizer.operators,
    Tokenizer.readNumber, Tokenizer.readOperator, Tokenizer.readOperatorLoop]

/-- C3: the spec claims parsing `"1 + 2 * 3"` yields
`BinaryExpression(+, Literal(1), BinaryExpression(*, Literal(2), Literal(3)))`
and parsing `"1 * 2 + 3"` yields the mirrored precedence-correct tree.  The
recursive-descent parser instead throws a parse error on both inputs: each
binary-precedence loop calls `this.match(OPERATOR)`, which consumes an
operator token even when its value belongs to a different precedence level,
so the `+` of the first input (and of the second) is swallowed by
`parseFactor`'s loop and the statement aborts at `consume(SEMICOLON)`.  This
theorem evaluates the embedded parser at both claimed inputs. -/
theorem c3_precedence_inputs_throw :
    parseSource 1000 "1 + 2 * 3" =
      Except.error "Expected ; after expression (at line 1, column 5)" ∧
    parseSource 1000 "1 * 2 + 3" =
      Except.error "Expected ; after expression (at line 1, column 9)" := by
  constructor
  · unfold parseSource
    rw [tokens_1p2t3]
    rfl
  · unfold parseSource
    rw [tokens_1t2p3]
    rfl

/-- C4: the spec claims parsing `"1 - 2 - 3"` yields the left-nested
`BinaryExpression(-, BinaryExpression(-, 1, 2), 3)`.  The recursive-descent
parser instead throws a parse error: `parseFactor`'s loop consumes the first
`-` (an OPERATOR token whose value is not `/` or `*`) without building any
node, so `parseTerm` never sees an operator and the statement aborts at
`consume(SEMICOLON)`.  This theorem evaluates the embedded parser at the
claimed input. -/
theorem c4_left_assoc_input_throws :
    parseSource 1000 "1 - 2 - 3" =
      Except.error "Expected ; after expression (at line 1, column 5)" := by
  unfold parseSource
  rw [tokens_1m2m3]
  rfl

end Parser

namespace MacroInterp

/-!
Embedding of the AST of `types/index.ts` and of the `MacroInterpreter`
(`macros/interpreter.ts`).  An `Identifier` wrapper that only carries a
name (`macro.name.name`, `parameters[i].name.name`) is flattened to the
name itself; a `Parameter` is represented by its name (its optional type
annotation is never read by the interpreter).  Numeric literal values are
carried opaquely as integers — the interpreter never computes with them.
The `MacroCall` variant appears both in `Expression` and in `Statement`
in the source union types; the statement-position variant is the
constructor `MacroCallStmt`.  Every statement-expanding function takes a
fuel argument consumed at entry: the TypeScript interpreter can diverge
on mutually recursive macros, and the embedding returns `none` exactly
when the given fuel is insufficient.
-/

inductive LitVal where
  | str (s : String)
  | num (n : Int)
  | bool (b : Bool)
deriving DecidableEq, Repr

mutual
inductive Expression where
  | Identifier (name : String)
  | Literal (value : LitVal)
  | BinaryExpression (operator : String) (left right : Expression)
  | CallExpression (callee : Expression) (args : List Expression)
  | MemberExpression (object : Expression) (property : String)
  | MacroCall (name : String) (args : List Expression)

inductive Statement where
  | FunctionDeclaration (name : String) (parameters : List String)
      (returnType : Option String) (body : List Statement)
  | VariableDeclaration (name : String) ( typeAnnotation : Option String)
      (initializer : Option Expression)
  | ExpressionStatement (expression : Expression)
  | ReturnStatement (expression : Option Expression)
  | IfStatement (condition : Expression) (thenStatement : Statement)
      (elseStatement : Option Statement)
  | MacroDefinition (name : String) (parameters : List String)
      (body : List Statement)
  | MacroCallStmt (name : String) (args : List Expression)
  | ApiDefinition (name : String)
  | TypeDefinition (name : String)
  | ModuleDefinition (name : String)
end

structure Program where
  body : List Statement

/- A diagnostics entry `{ message, code }` (the optional source location
   is never set by the macro interpreter). -/
structure CompMsg where
  message : String
  code : String
deriving DecidableEq, Repr

/- The error/warning lists of the `CompilerContext` (its `options` and
   `macros` fields are not read by the functions embedded here). -/
structure Ctx where
  errors : List CompMsg
  warnings : List CompMsg
deriving DecidableEq, Repr

def pushError (ctx : Ctx) (message code : String) : Ctx :=
  { ctx with errors := ctx.errors ++ [⟨message, code⟩] }

/- `this.macros`, a `Map<string, MacroDefinition>`: `set` overwrites, so
   the embedding prepends and `get` takes the most recent binding. -/
abbrev Macros := List (String × List String × List Statement)

def macrosSet (m : Macros) (name : String) (params : List String)
    (body : List Statement) : Macros :=
  (name, params, body) :: m

def macrosGet (m : Macros) (name : String) : Option (List String × List Statement) :=
  (m.find? (fun kv => kv.1 = name)).map (·.2)

/- `MacroEnvironment.parameters` (the `variables` map is never read). -/
abbrev Env := List (String × Expression)

def envSet (env : Env) (k : String) (v : Expression) : Env := (k, v) :: env

def envGet (env : Env) (k : String) : Option Expression :=
  (env.find? (fun kv => kv.1 = k)).map (·.2)

/- The parameter-binding loop of `expandMacro`, run only when the arity
   matches. -/
def buildEnv (params : List String) (args : List Expression) : Env :=
  (params.zip args).foldl (fun e kv => envSet e kv.1 kv.2) []

/- `expandIdentifier`: substitute when the name is bound to a parameter. -/
def expandIdentifier (env : Env) (name : String) : Expression :=
  match envGet env name with
  | some v => v
  | none => .Identifier name

mutual
/- `expandExpression` with its per-kind helpers inlined as constructor
   cases (`expandBinaryExpression`, `expandCallExpression`,
   `expandMemberExpression`); the default case — in particular a
   `Literal` or an expression-position `MacroCall` — returns the
   expression unchanged. -/
def expandExpression (env : Env) : Expression → Expression
  | .Identifier name => expandIdentifier env name
  | .BinaryExpression op l r =>
    .BinaryExpression op (expandExpression env l) (expandExpression env r)
  | .CallExpression callee args =>
    .CallExpression (expandExpression env callee) (expandExpressionList env args)
  | .MemberExpression obj prop => .MemberExpression (expandExpression env obj) prop
  | e => e

def expandExpressionList (env : Env) : List Expression → List Expression
  | [] => []
  | e :: rest => expandExpression env e :: expandExpressionList env rest
end

/- `expandVariableDeclaration`: substitute in the initializer when there
   is one. -/
def expandVariableDeclaration (name : String) (ty : Option String)
    (init : Option Expression) (env : Env) : Statement :=
  match init with
  | some e => .VariableDeclaration name ty (some (expandExpression env e))
  | none => .VariableDeclaration name ty none

def expandExpressionStatement (e : Expression) (env : Env) : Statement :=
  .ExpressionStatement (expandExpression env e)

def expandReturnStatement (e : Option Expression) (env : Env) : Statement :=
  match e with
  | some x => .ReturnStatement (some (expandExpression env x))
  | none => .ReturnStatement none

mutual
/- `expandMacro`: undefined macro and arity mismatch each record one
   error and produce zero statements; otherwise the macro body is
   expanded under the parameter binding. -/
def expandMacroCall : Nat → Macros → Ctx → String → List Expression →
    Option (List Statement × Ctx)
  | 0, _, _, _, _ => none
  | f + 1, macros, ctx, name, args =>
    match macrosGet macros name with
    | none => some ([], pushError ctx ("Undefined macro: " ++ name) "UNDEFINED_MACRO")
    | some (params, body) =>
      if args.length ≠ params.length then
        some ([], pushError ctx
          ("Macro " ++ name ++ " expects " ++ toString params.length ++
            " arguments, got " ++ toString args.length)
          "MACRO_ARGUMENT_MISMATCH")
      else
        expandStatements f macros ctx body (buildEnv params args)

/- `expandStatements`: the loop over a statement list.  A
   statement-position `MacroCall` is replaced by its expansion; macro,
   API, type and module definitions are passed through unchanged; every
   other statement is expanded by `expandStatement`. -/
def expandStatements : Nat → Macros → Ctx → List Statement → Env →
    Option (List Statement × Ctx)
  | 0, _, _, _, _ => none
  | f + 1, macros, ctx, stmts, env =>
    match stmts with
    | [] => some ([], ctx)
    | s :: rest =>
      match s with
      | .MacroCallStmt name args =>
        match expandMacroCall f macros ctx name args with
        | none => none
        | some (exp, ctx1) =>
          match expandStatements f macros ctx1 rest env with
          | none => none
          | some (out, ctx2) => some (exp ++ out, ctx2)
      | .MacroDefinition _ _ _ | .ApiDefinition _ | .TypeDefinition _
      | .ModuleDefinition _ =>
        match expandStatements f macros ctx rest env with
        | none => none
        | some (out, ctx1) => some (s :: out, ctx1)
      | _ =>
        match expandStatement f macros ctx s env with
        | none => none
        | some (s1, ctx1) =>
          match expandStatements f macros ctx1 rest env with
          | none => none
          | some (out, ctx2) => some (s1 :: out, ctx2)

/- `expandStatement`: per-kind dispatch; the default case returns the
   statement unchanged. -/
def expandStatement : Nat → Macros → Ctx → Statement → Env →
    Option (Statement × Ctx)
  | 0, _, _, _, _ => none
  | f + 1, macros, ctx, stmt, env =>
    match stmt with
    | .FunctionDeclaration n p r body =>
      expandFunctionDeclaration f macros ctx n p r body env
    | .VariableDeclaration n t init =>
      some (expandVariableDeclaration n t init env, ctx)
    | .ExpressionStatement e => some (expandExpressionStatement e env, ctx)
    | .ReturnStatement e => some (expandReturnStatement e env, ctx)
    | .IfStatement c t e => expandIfStatement f macros ctx c t e env
    | s => some (s, ctx)

/- `expandFunctionDeclaration`: expand the body statements. -/
def expandFunctionDeclaration : Nat → Macros → Ctx → String → List String →
    Option String → List Statement → Env → Option (Statement × Ctx)
  | 0, _, _, _, _, _, _, _ => none
  | f + 1, macros, ctx, n, p, r, body, env =>
    match expandStatements f macros ctx body env with
    | none => none
    | some (body1, ctx1) => some (.FunctionDeclaration n p r body1, ctx1)

/- `expandIfStatement`: substitute in the condition, expand both
   branches. -/
def expandIfStatement : Nat → Macros → Ctx → Expression → Statement →
    Option Statement → Env → Option (Statement × Ctx)
  | 0, _, _, _, _, _, _ => none
  | f + 1, macros, ctx, cond, thenS, elseS, env =>
    match expandStatement f macros ctx thenS env with
    | none => none
    | some (t1, ctx1) =>
      match elseS with
      | none => some (.IfStatement (expandExpression env cond) t1 none, ctx1)
      | some e =>
        match expandStatement f macros ctx1 e env with
        | none => none
        | some (e1, ctx2) =>
          some (.IfStatement (expandExpression env cond) t1 (some e1), ctx2)
end

/- The first pass of `processProgram`: register every top-level
   `MacroDefinition` (later definitions of the same name overwrite
   earlier ones, as `Map.set` does). -/
def registerMacros (body : List Statement) : Macros :=
  body.foldl
    (fun m s =>
      match s with
      | .MacroDefinition n p b => macrosSet m n p b
      | _ => m)
    []

/- `processProgram`: register the definitions, then expand the body with
   an empty parameter environment. -/
def processProgram (fuel : Nat) (ctx : Ctx) (prog : Program) :
    Option (Program × Ctx) :=
  match expandStatements fuel (registerMacros prog.body) ctx prog.body [] with
  | none => none
  | some (body1, ctx1) => some (⟨body1⟩, ctx1)

def isMacroCallStmt : Statement → Bool
  | .MacroCallStmt _ _ => true
  | _ => false

/- Deep search for a `MacroDefinition` or `MacroCall` node (statement or
   expression position) reachable from an expression / a statement / a
   statement list — the reachability notion of the original claim. -/
mutual
def exprHasMacroNode : Expression → Bool
  | .MacroCall _ _ => true
  | .BinaryExpression _ l r => exprHasMacroNode l || exprHasMacroNode r
  | .CallExpression c args => exprHasMacroNode c || exprsHaveMacroNode args
  | .MemberExpression o _ => exprHasMacroNode o
  | _ => false

def exprsHaveMacroNode : List Expression → Bool
  | [] => false
  | e :: rest => exprHasMacroNode e || exprsHaveMacroNode rest
end

mutual
def stmtHasMacroNode : Statement → Bool
  | .MacroDefinition _ _ _ => true
  | .MacroCallStmt _ _ => true
  | .FunctionDeclaration _ _ _ body => stmtsHaveMacroNode body
  | .VariableDeclaration _ _ init =>
    (match init with | some e => exprHasMacroNode e | none => false)
  | .ExpressionStatement e => exprHasMacroNode e
  | .ReturnStatement e =>
    (match e with | some x => exprHasMacroNode x | none => false)
  | .IfStatement c t e =>
    exprHasMacroNode c || stmtHasMacroNode t ||
      (match e with | some s => stmtHasMacroNode s | none => false)
  | _ => false

def stmtsHaveMacroNode : List Statement → Bool
  | [] => false
  | s :: rest => stmtHasMacroNode s || stmtsHaveMacroNode rest
end

/- The guarantee that the interpreter actually provides: no `MacroCall`
   occurs as a direct element of a statement list that the expansion
   rebuilds — the top-level body, function bodies anywhere inside it, and
   function bodies inside if-branches.  (Retained `MacroDefinition`
   bodies are exempt: they are passed through verbatim.) -/
mutual
def innerListsGood : Statement → Bool
  | .FunctionDeclaration _ _ _ body => goodStmtList body
  | .IfStatement _ t e =>
    innerListsGood t &&
      (match e with | some s => innerListsGood s | none => true)
  | _ => true

def goodStmtList : List Statement → Bool
  | [] => true
  | s :: rest => !(isMacroCallStmt s) && innerListsGood s && goodStmtList rest
end

theorem goodStmtList_append (a b : List Statement) :
    goodStmtList (a ++ b) = (goodStmtList a && goodStmtList b) := by
  induction a with
  | nil => simp [goodStmtList]
  | cons s rest ih =>
    simp only [List.cons_append, goodStmtList, List.append_eq, ih, Bool.and_assoc]

theorem expand_no_macrocall_elements (f : Nat) :
    (∀ macros ctx name args out ctx2,
      expandMacroCall f macros ctx name args = some (out, ctx2) →
        goodStmtList out = true) ∧
    (∀ macros ctx stmts env out ctx2,
      expandStatements f macros ctx stmts env = some (out, ctx2) →
        goodStmtList out = true) ∧
    (∀ macros ctx s env s2 ctx2,
      expandStatement f macros ctx s env = some (s2, ctx2) →
        innerListsGood s2 = true ∧ isMacroCallStmt s2 = isMacroCallStmt s) ∧
    (∀ macros ctx n p r body env s2 ctx2,
      expandFunctionDeclaration f macros ctx n p r body env = some (s2, ctx2) →
        innerListsGood s2 = true ∧ isMacroCallStmt s2 = false) ∧
    (∀ macros ctx c t e env s2 ctx2,
      expandIfStatement f macros ctx c t e env = some (s2, ctx2) →
        innerListsGood s2 = true ∧ isMacroCallStmt s2 = false) := by
  induction f with
  | zero =>
    refine ⟨?_, ?_, ?_, ?_, ?_⟩
    · intro _ _ _ _ _ _ h; simp [expandMacroCall] at h
    · intro _ _ _ _ _ _ h; simp [expandStatements] at h
    · intro _ _ _ _ _ _ h; simp [expandStatement] at h
    · intro _ _ _ _ _ _ _ _ _ h; simp [expandFunctionDeclaration] at h
    · intro _ _ _ _ _ _ _ _ h; simp [expandIfStatement] at h
  | succ f ih =>
    obtain ⟨ihM, ihS, ihT, ihF, ihI⟩ := ih
    have hStmts : ∀ macros ctx stmts env out ctx2,
        expandStatements (f + 1) macros ctx stmts env = some (out, ctx2) →
          goodStmtList out = true := by
      intro macros ctx stmts env out ctx2 h
      cases stmts with
      | nil =>
        simp only [expandStatements, Option.some.injEq, Prod.mk.injEq] at h
        obtain ⟨h1, h2⟩ := h
        subst h1
        rfl
      | cons s rest =>
        cases s with
        | MacroCallStmt name args =>
          simp only [expandStatements] at h
          cases hm : expandMacroCall f macros ctx name args with
          | none => rw [hm] at h; simp at h
          | some p =>
            obtain ⟨exp, ctx1⟩ := p
            rw [hm] at h
            dsimp only at h
            cases hs : expandStatements f macros ctx1 rest env with
            | none => rw [hs] at h; simp at h
            | some q =>
              obtain ⟨out2, ctx3⟩ := q
              rw [hs] at h
              dsimp only at h
              simp only [Option.some.injEq, Prod.mk.injEq] at h
              obtain ⟨h1, h2⟩ := h
              subst h1
              rw [goodStmtList_append]
              rw [ihM _ _ _ _ _ _ hm, ihS _ _ _ _ _ _ hs]
              rfl
        | MacroDefinition n p b =>
          simp only [expandStatements] at h
          cases hs : expandStatements f macros ctx rest env with
          | none => rw [hs] at h; simp at h
          | some q =>
            obtain ⟨out2, ctx3⟩ := q
            rw [hs] at h
            dsimp only at h
            simp only [Option.some.injEq, Prod.mk.injEq] at h
            obtain ⟨h1, h2⟩ := h
            subst h1
            simp only [goodStmtList, isMacroCallStmt, innerListsGood]
            rw [ihS _ _ _ _ _ _ hs]
            rfl
        | ApiDefinition n =>
          simp only [expandStatements] at h
          cases hs : expandStatements f macros ctx rest env with
          | none => rw [hs] at h; simp at h
          | some q =>
            obtain ⟨out2, ctx3⟩ := q
            rw [hs] at h
            dsimp only at h
            simp only [Option.some.injEq, Prod.mk.injEq] at h
            obtain ⟨h1, h2⟩ := h
            subst h1
            simp only [goodStmtList, isMacroCallStmt, innerListsGood]
            rw [ihS _ _ _ _ _ _ hs]
            rfl
        | TypeDefinition n =>
          simp only [expandStatements] at h
          cases hs : expandStatements f macros ctx rest env with
          | none => rw [hs] at h; simp at h
          | some q =>
            obtain ⟨out2, ctx3⟩ := q
            rw [hs] at h
            dsimp only at h
            simp only [Option.some.injEq, Prod.mk.injEq] at h
            obtain ⟨h1, h2⟩ := h
            subst h1
            simp only [goodStmtList, isMacroCallStmt, innerListsGood]
            rw [ihS _ _ _ _ _ _ hs]
            rfl
        | ModuleDefinition n =>
          simp only [expandStatements] at h
          cases hs : expandStatements f macros ctx rest env with
          | none => rw [hs] at h; simp at h
          | some q =>
            obtain ⟨out2, ctx3⟩ := q
            rw [hs] at h
            dsimp only at h
            simp only [Option.some.injEq, Prod.mk.injEq] at h
            obtain ⟨h1, h2⟩ := h
            subst h1
            simp only [goodStmtList, isMacroCallStmt, innerListsGood]
            rw [ihS _ _ _ _ _ _ hs]
            rfl
        | FunctionDeclaration n p r b =>
          simp only [expandStatements] at h
          cases ht : expandStatement f macros ctx (.FunctionDeclaration n p r b) env with
          | none => rw [ht] at h; simp at h
          | some p1 =>
            obtain ⟨s1, ctx1⟩ := p1
            rw [ht] at h
            dsimp only at h
            cases hs : expandStatements f macros ctx1 rest env with
            | none => rw [hs] at h; simp at h
            | some q =>
              obtain ⟨out2, ctx3⟩ := q
              rw [hs] at h
              dsimp only at h
              simp only [Option.some.injEq, Prod.mk.injEq] at h
              obtain ⟨h1, h2⟩ := h
              subst h1
              have hh := ihT _ _ _ _ _ _ ht
              have hmc : isMacroCallStmt s1 = false := by rw [hh.2]; rfl
              simp only [goodStmtList, hh.1, hmc]
              rw [ihS _ _ _ _ _ _ hs]
              rfl
        | VariableDeclaration n t init =>
          simp only [expandStatements] at h
          cases ht : expandStatement f macros ctx (.VariableDeclaration n t init) env with
          | none => rw [ht] at h; simp at h
          | some p1 =>
            obtain ⟨s1, ctx1⟩ := p1
            rw [ht] at h
            dsimp only at h
            cases hs : expandStatements f macros ctx1 rest env with
            | none => rw [hs] at h; simp at h
            | some q =>
              obtain ⟨out2, ctx3⟩ := q
              rw [hs] at h
              dsimp only at h
              simp only [Option.some.injEq, Prod.mk.injEq] at h
              obtain ⟨h1, h2⟩ := h
              subst h1
              have hh := ihT _ _ _ _ _ _ ht
              have hmc : isMacroCallStmt s1 = false := by rw [hh.2]; rfl
              simp only [goodStmtList, hh.1, hmc]
              rw [ihS _ _ _ _ _ _ hs]
              rfl
        | ExpressionStatement e =>
          simp only [expandStatements] at h
          cases ht : expandStatement f macros ctx (.ExpressionStatement e) env with
          | none => rw [ht] at h; simp at h
          | some p1 =>
            obtain ⟨s1, ctx1⟩ := p1
            rw [ht] at h
            dsimp only at h
            cases hs : expandStatements f macros ctx1 rest env with
            | none => rw [hs] at h; simp at h
            | some q =>
              obtain ⟨out2, ctx3⟩ := q
              rw [hs] at h
              dsimp only at h
              simp only [Option.some.injEq, Prod.mk.injEq] at h
              obtain ⟨h1, h2⟩ := h
              subst h1
              have hh := ihT _ _ _ _ _ _ ht
              have hmc : isMacroCallStmt s1 = false := by rw [hh.2]; rfl
              simp only [goodStmtList, hh.1, hmc]
              rw [ihS _ _ _ _ _ _ hs]
              rfl
        | ReturnStatement e =>
          simp only [expandStatements] at h
          cases ht : expandStatement f macros ctx (.ReturnStatement e) env with
          | none => rw [ht] at h; simp at h
          | some p1 =>
            obtain ⟨s1, ctx1⟩ := p1
            rw [ht] at h
            dsimp only at h
            cases hs : expandStatements f macros ctx1 rest env with
            | none => rw [hs] at h; simp at h
            | some q =>
              obtain ⟨out2, ctx3⟩ := q
              rw [hs] at h
              dsimp only at h
              simp only [Option.some.injEq, Prod.mk.injEq] at h
              obtain ⟨h1, h2⟩ := h
              subst h1
              have hh := ihT _ _ _ _ _ _ ht
              have hmc : isMacroCallStmt s1 = false := by rw [hh.2]; rfl
              simp only [goodStmtList, hh.1, hmc]
              rw [ihS _ _ _ _ _ _ hs]
              rfl
        | IfStatement c t e =>
          simp only [expandStatements] at h
          cases ht : expandStatement f macros ctx (.IfStatement c t e) env with
          | none => rw [ht] at h; simp at h
          | some p1 =>
            obtain ⟨s1, ctx1⟩ := p1
            rw [ht] at h
            dsimp only at h
            cases hs : expandStatements f macros ctx1 rest env with
            | none => rw [hs] at h; simp at h
            | some q =>
              obtain ⟨out2, ctx3⟩ := q
              rw [hs] at h
              dsimp only at h
              simp only [Option.some.injEq, Prod.mk.injEq] at h
              obtain ⟨h1, h2⟩ := h
              subst h1
              have hh := ihT _ _ _ _ _ _ ht
              have hmc : isMacroCallStmt s1 = false := by rw [hh.2]; rfl
              simp only [goodStmtList, hh.1, hmc]
              rw [ihS _ _ _ _ _ _ hs]
              rfl
    refine ⟨?_, hStmts, ?_, ?_, ?_⟩
    · -- expandMacroCall (f + 1)
      intro macros ctx name args out ctx2 h
      simp only [expandMacroCall] at h
      cases hg : macrosGet macros name with
      | none =>
        rw [hg] at h
        dsimp only at h
        simp only [Option.some.injEq, Prod.mk.injEq] at h
        obtain ⟨h1, h2⟩ := h
        subst h1
        rfl
      | some pb =>
        obtain ⟨params, body⟩ := pb
        rw [hg] at h
        dsimp only at h
        by_cases hlen : args.length ≠ params.length
        · rw [if_pos hlen] at h
          simp only [Option.some.injEq, Prod.mk.injEq] at h
          obtain ⟨h1, h2⟩ := h
          subst h1
          rfl
        · rw [if_neg hlen] at h
          exact ihS _ _ _ _ _ _ h
    · -- expandStatement (f + 1)
      intro macros ctx s env s2 ctx2 h
      cases s with
      | FunctionDeclaration n p r body =>
        simp only [expandStatement] at h
        have hh := ihF _ _ _ _ _ _ _ _ _ h
        exact ⟨hh.1, by rw [hh.2]; rfl⟩
      | VariableDeclaration n t init =>
        simp only [expandStatement, Option.some.injEq, Prod.mk.injEq] at h
        obtain ⟨h1, h2⟩ := h
        subst h1
        unfold expandVariableDeclaration
        cases init <;> simp [innerListsGood, isMacroCallStmt]
      | ExpressionStatement e =>
        simp only [expandStatement, Option.some.injEq, Prod.mk.injEq] at h
        obtain ⟨h1, h2⟩ := h
        subst h1
        simp [expandExpressionStatement, innerListsGood, isMacroCallStmt]
      | ReturnStatement e =>
        simp only [expandStatement, Option.some.injEq, Prod.mk.injEq] at h
        obtain ⟨h1, h2⟩ := h
        subst h1
        unfold expandReturnStatement
        cases e <;> simp [innerListsGood, isMacroCallStmt]
      | IfStatement c t e =>
        simp only [expandStatement] at h
        have hh := ihI _ _ _ _ _ _ _ _ h
        exact ⟨hh.1, by rw [hh.2]; rfl⟩
      | MacroDefinition n p b =>
        simp only [expandStatement, Option.some.injEq, Prod.mk.injEq] at h
        obtain ⟨h1, h2⟩ := h
        subst h1
        exact ⟨rfl, rfl⟩
      | MacroCallStmt name args =>
        simp only [expandStatement, Option.some.injEq, Prod.mk.injEq] at h
        obtain ⟨h1, h2⟩ := h
        subst h1
        exact ⟨rfl, rfl⟩
      | ApiDefinition n =>
        simp only [expandStatement, Option.some.injEq, Prod.mk.injEq] at h
        obtain ⟨h1, h2⟩ := h
        subst h1
        exact ⟨rfl, rfl⟩
      | TypeDefinition n =>
        simp only [expandStatement, Option.some.injEq, Prod.mk.injEq] at h
        obtain ⟨h1, h2⟩ := h
        subst h1
        exact ⟨rfl, rfl⟩
      | ModuleDefinition n =>
        simp only [expandStatement, Option.some.injEq, Prod.mk.injEq] at h
        obtain ⟨h1, h2⟩ := h
        subst h1
        exact ⟨rfl, rfl⟩
    · -- expandFunctionDeclaration (f + 1)
      intro macros ctx n p r body env s2 ctx2 h
      simp only [expandFunctionDeclaration] at h
      cases hs : expandStatements f macros ctx body env with
      | none => rw [hs] at h; simp at h
      | some q =>
        obtain ⟨body1, ctx1⟩ := q
        rw [hs] at h
        dsimp only at h
        simp only [Option.some.injEq, Prod.mk.injEq] at h
        obtain ⟨h1, h2⟩ := h
        subst h1
        exact ⟨by simpa [innerListsGood] using ihS _ _ _ _ _ _ hs, rfl⟩
    · -- expandIfStatement (f + 1)
      intro macros ctx c t e env s2 ctx2 h
      simp only [expandIfStatement] at h
      cases ht : expandStatement f macros ctx t env with
      | none => rw [ht] at h; simp at h
      | some p1 =>
        obtain ⟨t1, ctx1⟩ := p1
        rw [ht] at h
        dsimp only at h
        have hht := ihT _ _ _ _ _ _ ht
        cases e with
        | none =>
          simp only [Option.some.injEq, Prod.mk.injEq] at h
          obtain ⟨h1, h2⟩ := h
          subst h1
          simp [innerListsGood, hht.1, isMacroCallStmt]
        | some e0 =>
          dsimp only at h
          cases he : expandStatement f macros ctx1 e0 env with
          | none => rw [he] at h; simp at h
          | some p2 =>
            obtain ⟨e1, ctx3⟩ := p2
            rw [he] at h
            dsimp only at h
            simp only [Option.some.injEq, Prod.mk.injEq] at h
            obtain ⟨h1, h2⟩ := h
            subst h1
            have hhe := ihT _ _ _ _ _ _ he
            simp [innerListsGood, hht.1, hhe.1, isMacroCallStmt]

/-- C2 counterexample: a program with one trivially well-formed,
non-recursive macro definition and no macro recursion at all comes out of
`processProgram` still containing a `MacroDefinition` node (the expander
pushes definitions through unchanged) and a reachable `MacroCall` node in
expression position (expression expansion leaves `MacroCall` to its
default case), so the claimed "no MacroCall and no MacroDefinition
reachable from Program.body" is false. -/
theorem c2_macro_nodes_remain_counterexample :
    processProgram 10 ⟨[], []⟩
      ⟨[.MacroDefinition "m" [] [],
        .VariableDeclaration "v" none (some (.MacroCall "m" []))]⟩ =
      some (⟨[.MacroDefinition "m" [] [],
        .VariableDeclaration "v" none (some (.MacroCall "m" []))]⟩, ⟨[], []⟩) ∧
    stmtsHaveMacroNode
      [.MacroDefinition "m" [] [],
       .VariableDeclaration "v" none (some (.MacroCall "m" []))] = true :=
  ⟨rfl, rfl⟩

/-- C2 (amended): for every program whose macro expansion succeeds within
some fuel bound (in particular every program with well-formed,
non-mutually-recursive macros), the AST returned by
`MacroInterpreter.processProgram` contains no `MacroCall` node as a direct
element of any statement list rebuilt by the expansion — `Program.body`,
the bodies of function declarations inside it, and function bodies inside
if-branches.  (`MacroDefinition` statements are retained verbatim, and
`MacroCall` nodes may survive in expression position or as a direct
if-branch; the counterexample shows the original, stronger claim fails.) -/
theorem c2_processProgram_statement_lists_macrocall_free (fuel : Nat)
    (ctx : Ctx) (prog out : Program) (ctx2 : Ctx)
    (h : processProgram fuel ctx prog = some (out, ctx2)) :
    goodStmtList out.body = true := by
  unfold processProgram at h
  cases hs : expandStatements fuel (registerMacros prog.body) ctx prog.body [] with
  | none => rw [hs] at h; simp at h
  | some q =>
    obtain ⟨body1, ctx1⟩ := q
    rw [hs] at h
    dsimp only at h
    simp only [Option.some.injEq, Prod.mk.injEq] at h
    obtain ⟨h1, h2⟩ := h
    rw [← h1]
    exact (expand_no_macrocall_elements fuel).2.1 _ _ _ _ _ _ hs

/-- Witness for the amended C2 theorem: a two-parameter-free macro whose
call is fully expanded; the hypothesis (expansion succeeds within fuel
10) is discharged by computation. -/
theorem c2_processProgram_statement_lists_macrocall_free_witness :
    processProgram 10 ⟨[], []⟩
      ⟨[.MacroDefinition "m" ["x"] [.ExpressionStatement (.Identifier "x")],
        .MacroCallStmt "m" [.Literal (.num 1)]]⟩ =
      some (⟨[.MacroDefinition "m" ["x"] [.ExpressionStatement (.Identifier "x")],
        .ExpressionStatement (.Literal (.num 1))]⟩, ⟨[], []⟩) ∧
    goodStmtList
      (Program.body ⟨[.MacroDefinition "m" ["x"]
          [.ExpressionStatement (.Identifier "x")],
        .ExpressionStatement (.Literal (.num 1))]⟩) = true :=
  ⟨rfl,
   c2_processProgram_statement_lists_macrocall_free 10 ⟨[], []⟩
     ⟨[.MacroDefinition "m" ["x"] [.ExpressionStatement (.Identifier "x")],
       .MacroCallStmt "m" [.Literal (.num 1)]]⟩ _ _ rfl⟩

/-- C5: for every registered macro and every statement-position call to it
whose argument count differs from its parameter count, `expandMacro`
appends exactly one error, carrying the distinguishable code
`MACRO_ARGUMENT_MISMATCH`, to the context's error list and returns zero
expanded statements; the expansion of the surrounding statement list
continues with the remaining statements. -/
theorem c5_expandMacro_arity_mismatch (fuel : Nat) (macros : Macros)
    (ctx : Ctx) (name : String) (args : List Expression)
    (params : List String) (body rest : List Statement) (env : Env)
    (hfind : macrosGet macros name = some (params, body))
    (hlen : args.length ≠ params.length) :
    expandMacroCall (fuel + 1) macros ctx name args =
      some ([], pushError ctx
        ("Macro " ++ name ++ " expects " ++ toString params.length ++
          " arguments, got " ++ toString args.length)
        "MACRO_ARGUMENT_MISMATCH") ∧
    (pushError ctx
        ("Macro " ++ name ++ " expects " ++ toString params.length ++
          " arguments, got " ++ toString args.length)
        "MACRO_ARGUMENT_MISMATCH").errors =
      ctx.errors ++
        [⟨"Macro " ++ name ++ " expects " ++ toString params.length ++
            " arguments, got " ++ toString args.length,
          "MACRO_ARGUMENT_MISMATCH"⟩] ∧
    expandStatements (fuel + 2) macros ctx (.MacroCallStmt name args :: rest) env =
      expandStatements (fuel + 1) macros
        (pushError ctx
          ("Macro " ++ name ++ " expects " ++ toString params.length ++
            " arguments, got " ++ toString args.length)
          "MACRO_ARGUMENT_MISMATCH")
        rest env := by
  have hcall : expandMacroCall (fuel + 1) macros ctx name args =
      some ([], pushError ctx
        ("Macro " ++ name ++ " expects " ++ toString params.length ++
          " arguments, got " ++ toString args.length)
        "MACRO_ARGUMENT_MISMATCH") := by
    simp only [expandMacroCall]
    rw [hfind]
    dsimp only
    rw [if_pos hlen]
  refine ⟨hcall, rfl, ?_⟩
  rw [expandStatements]
  rw [hcall]
  dsimp only
  cases hs : expandStatements (fuel + 1) macros
      (pushError ctx
        ("Macro " ++ name ++ " expects " ++ toString params.length ++
          " arguments, got " ++ toString args.length)
        "MACRO_ARGUMENT_MISMATCH")
      rest env with
  | none => simp [hs]
  | some q =>
    obtain ⟨out, ctx3⟩ := q
    simp [hs]

/-- Witness for the C5 theorem: a two-parameter macro called with one
argument; exactly one `MACRO_ARGUMENT_MISMATCH` error is recorded and the
call site expands to zero statements. -/
theorem c5_expandMacro_arity_mismatch_witness :
    expandMacroCall 1 [("m", (["a", "b"], []))] ⟨[], []⟩ "m" [.Literal (.num 1)] =
      some ([], ⟨[⟨"Macro m expects 2 arguments, got 1",
        "MACRO_ARGUMENT_MISMATCH"⟩], []⟩) :=
  (c5_expandMacro_arity_mismatch 0 [("m", (["a", "b"], []))] ⟨[], []⟩ "m"
    [.Literal (.num 1)] ["a", "b"] [] [] [] rfl (by decide)).1

end MacroInterp

namespace Middleware

/-!
Embedding of the middleware subsystem: the `HoisterMiddleware`
(middleware/hoister.ts), the `TypeCheckerMiddleware`
(middleware/type-checker.ts), the `VariableRenamerMiddleware`
(middleware/variable-renamer.ts) and the `MiddlewareManager`
(middleware/index.ts).  These passes traverse an untyped AST whose nodes
carry PascalCase `type` tags and plain-string names (`node.name`,
`node.init`, `node.test`/`node.consequent`/`node.alternate` …); `MNode`
is that node shape.  The passes' `process` methods are `async` but
contain no suspension point other than their immediate return, so they
are embedded as plain functions.  The diagnostics context is the same
`CompilerContext` embedded as `MacroInterp.Ctx`.
-/

open MacroInterp (Ctx CompMsg)

inductive MLit where
  | num (n : Int)
  | str (s : String)
  | bool (b : Bool)
  | null
deriving DecidableEq, Repr

inductive MNode where
  | Program (body : List MNode)
  | FunctionDeclaration (name : String) (params : List String) (body : MNode)
  | VariableDeclaration (kind name : String) (init : Option MNode)
  | ExpressionStatement (expression : MNode)
  | IfStatement (test consequent : MNode) (alternate : Option MNode)
  | WhileStatement (test body : MNode)
  | ForStatement (init test update : Option MNode) (body : MNode)
  | ReturnStatement (argument : Option MNode)
  | BlockStatement (body : List MNode)
  | BinaryExpression (operator : String) (left right : MNode)
  | UnaryExpression (operator : String) (argument : MNode)
  | CallExpression (callee : MNode) (args : List MNode)
  | MemberExpression (object property : MNode) (computed : Bool)
  | Identifier (name : String)
  | Literal (value : MLit)

def pushWarning (ctx : Ctx) (message code : String) : Ctx :=
  { ctx with warnings := ctx.warnings ++ [⟨message, code⟩] }

/- `HoisterMiddleware.isDeclaration`. -/
def isDeclaration : MNode → Bool
  | .VariableDeclaration _ _ _ => true
  | .FunctionDeclaration _ _ _ => true
  | _ => false

/- The separation loop shared by `hoistProgram` and
   `hoistBlockStatement`: one pass over the statements pushing each onto
   `hoistedDeclarations` or `otherStatements`. -/
def hoistPartition (body : List MNode) : List MNode × List MNode :=
  body.foldl
    (fun acc s =>
      if isDeclaration s then (acc.1 ++ [s], acc.2) else (acc.1, acc.2 ++ [s]))
    ([], [])

/- The reassembled statement list `[...hoistedDeclarations,
   ...otherStatements]`. -/
def hoistBlockBody (body : List MNode) : List MNode :=
  (hoistPartition body).1 ++ (hoistPartition body).2

/- `hoistProgram`: `{ ...program, body }` with the reordered body. -/
def hoistProgramNode : MNode → MNode
  | .Program body => .Program (hoistBlockBody body)
  | n => n

/- `hoistBlockStatement` at the node level. -/
def hoistBlockStatementNode : MNode → MNode
  | .BlockStatement body => .BlockStatement (hoistBlockBody body)
  | n => n

theorem hoistPartition_eq_filter (body : List MNode) :
    hoistPartition body =
      (body.filter isDeclaration, body.filter (fun s => !isDeclaration s)) := by
  have hgen : ∀ (l : List MNode) (acc : List MNode × List MNode),
      l.foldl
        (fun acc s =>
          if isDeclaration s then (acc.1 ++ [s], acc.2) else (acc.1, acc.2 ++ [s]))
        acc =
      (acc.1 ++ l.filter isDeclaration, acc.2 ++ l.filter (fun s => !isDeclaration s)) := by
    intro l
    induction l with
    | nil => intro acc; simp
    | cons s rest ih =>
      intro acc
      by_cases hd : isDeclaration s
      · simp only [List.foldl_cons, if_pos hd, ih, List.filter_cons, hd]
        simp
      · simp only [List.foldl_cons, if_neg hd, ih, List.filter_cons]
        simp [hd]
  have h := hgen body ([], [])
  simpa [hoistPartition] using h

/-- C6: for every `Program` node and every `BlockStatement` node processed
by the hoister, the output statement list is the stable partition of the
input list: the declarations (function/variable declarations) in their
original relative order, followed by all other statements in their
original relative order; in particular it is a permutation of the input.
-/
theorem c6_hoist_stable_partition (body : List MNode) :
    hoistBlockBody body =
      body.filter isDeclaration ++ body.filter (fun s => !isDeclaration s) ∧
    (hoistBlockBody body).Perm body ∧
    (∀ s ∈ body.filter isDeclaration, isDeclaration s = true) ∧
    (∀ s ∈ body.filter (fun s => !isDeclaration s), isDeclaration s = false) ∧
    hoistProgramNode (.Program body) = .Program (hoistBlockBody body) ∧
    hoistBlockStatementNode (.BlockStatement body) =
      .BlockStatement (hoistBlockBody body) := by
  have heq : hoistBlockBody body =
      body.filter isDeclaration ++ body.filter (fun s => !isDeclaration s) := by
    unfold hoistBlockBody
    rw [hoistPartition_eq_filter]
  refine ⟨heq, ?_, ?_, ?_, rfl, rfl⟩
  · rw [heq]
    exact List.filter_append_perm _ body
  · intro s hs
    exact List.of_mem_filter hs
  · intro s hs
    simpa using List.of_mem_filter hs


/- `TypeCheckerMiddleware.getLiteralType`: `typeof`-based classification
   (both branches of the `Number.isInteger` test yield `number`). -/
def getLiteralType : MLit → String
  | .num _ => "number"
  | .str _ => "string"
  | .bool _ => "boolean"
  | .null => "null"

/- `TypeCheckerMiddleware.getBinaryResultType`.  The switch has cases for
   `+`, the four arithmetic operators, the equality operators, and the
   logical operators; everything else — including the four comparison
   operators — falls through to `default: return 'any'`. -/
def getBinaryResultType (leftType rightType op : String) : String :=
  if op = "+" then
    (if leftType = "string" ∨ rightType = "string" then "string" else "number")
  else if op = "-" ∨ op = "*" ∨ op = "/" ∨ op = "%" then "number"
  else if op = "==" ∨ op = "!=" ∨ op = "===" ∨ op = "!==" then "boolean"
  else if op = "&&" ∨ op = "||" then "boolean"
  else "any"

/- `TypeCheckerMiddleware.getUnaryResultType`. -/
def getUnaryResultType (argType op : String) : String :=
  if op = "!" then "boolean"
  else if op = "-" then "number"
  else if op = "+" then "number"
  else "any"

/- `TypeCheckerMiddleware.isValidBinaryOperation`. -/
def isValidBinaryOperation (leftType rightType op : String) : Bool :=
  if op = "+" then true
  else if op = "-" ∨ op = "*" ∨ op = "/" ∨ op = "%" then
    leftType = "number" && rightType = "number"
  else if op = "==" ∨ op = "!=" ∨ op = "===" ∨ op = "!==" then true
  else if op = "<" ∨ op = "<=" ∨ op = ">" ∨ op = ">=" then
    leftType = "number" && rightType = "number"
  else if op = "&&" ∨ op = "||" then
    leftType = "boolean" && rightType = "boolean"
  else true

/- `TypeCheckerMiddleware.isValidUnaryOperation`. -/
def isValidUnaryOperation (argType op : String) : Bool :=
  if op = "!" then argType = "boolean"
  else if op = "-" ∨ op = "+" then argType = "number"
  else true

/- `TypeCheckerMiddleware.inferType` (`!node` cannot hold for a concrete
   node; the `Option`-valued children are handled at the call sites). -/
def inferType : MNode → String
  | .Literal v => getLiteralType v
  | .Identifier _ => "any"
  | .BinaryExpression op l r => getBinaryResultType (inferType l) (inferType r) op
  | .UnaryExpression op a => getUnaryResultType (inferType a) op
  | .CallExpression _ _ => "any"
  | .MemberExpression _ _ _ => "any"
  | _ => "any"

/-- C7 counterexample: the claim says every comparison operator yields
`boolean`, but `getBinaryResultType` has no case for `<`, `<=`, `>`, `>=`,
so they fall through to `'any'`; in particular the type checker infers
`any`, not `boolean`, for `1 < 2`. -/
theorem c7_comparison_yields_any_counterexample :
    getBinaryResultType "number" "number" "<" = "any" ∧
    inferType (.BinaryExpression "<" (.Literal (.num 1)) (.Literal (.num 2))) = "any" ∧
    ("any" : String) ≠ "boolean" :=
  ⟨rfl, rfl, by decide⟩

/-- C7 (amended): for every binary expression the type checker infers
`getBinaryResultType` of the operand types; `+` yields `string` when
either operand type is `string` and `number` otherwise; the arithmetic
operators `-`, `*`, `/`, `%` yield `number` and are valid exactly when
both operand types are `number`; the equality and logical operators
yield `boolean`; but the comparison operators `<`, `<=`, `>`, `>=` fall
through to the default and yield `any` (they too are valid only on
`number` operands). -/
theorem c7_binary_result_type_table (lt rt : String) (op : String) (l r : MNode) :
    inferType (.BinaryExpression op l r) =
      getBinaryResultType (inferType l) (inferType r) op ∧
    getBinaryResultType lt rt "+" =
      (if lt = "string" ∨ rt = "string" then "string" else "number") ∧
    (∀ op2 ∈ (["-", "*", "/", "%"] : List String),
      getBinaryResultType lt rt op2 = "number" ∧
      isValidBinaryOperation lt rt op2 =
        (decide (lt = "number") && decide (rt = "number"))) ∧
    (∀ op2 ∈ (["==", "!=", "&&", "||"] : List String),
      getBinaryResultType lt rt op2 = "boolean") ∧
    (∀ op2 ∈ (["<", "<=", ">", ">="] : List String),
      getBinaryResultType lt rt op2 = "any" ∧
      isValidBinaryOperation lt rt op2 =
        (decide (lt = "number") && decide (rt = "number"))) := by
  refine ⟨rfl, rfl, ?_, ?_, ?_⟩
  · intro op2 hmem
    fin_cases hmem <;> exact ⟨rfl, rfl⟩
  · intro op2 hmem
    fin_cases hmem <;> rfl
  · intro op2 hmem
    fin_cases hmem <;> exact ⟨rfl, rfl⟩

/-- Witness for the amended C7 theorem at concrete operand types and a
concrete expression. -/
theorem c7_binary_result_type_table_witness :
    getBinaryResultType "number" "number" "-" = "number" ∧
    isValidBinaryOperation "number" "number" "-" =
      (decide (("number" : String) = "number") && decide (("number" : String) = "number")) :=
  (c7_binary_result_type_table "number" "number" "-"
    (.Literal (.num 1)) (.Literal (.num 2))).2.2.1 "-" (by simp)


/- The state of one `VariableRenamerMiddleware.process` invocation: the
   flat rename table (`Map.set` overwrites, so the embedding prepends and
   lookup takes the most recent binding; a name is only ever inserted
   once) and the fresh-name counter. -/
structure RState where
  variableMap : List (String × String)
  counter : Nat
deriving Repr

def vmGet (m : List (String × String)) (k : String) : Option String :=
  (m.find? (fun kv => kv.1 = k)).map (·.2)

def vmSet (m : List (String × String)) (k v : String) : List (String × String) :=
  (k, v) :: m

/- `generateUniqueName`: reuse an existing mapping; skip the exempt
   loop-variable names; otherwise mint `_<original>_<counter>` (the
   counter is read before it is incremented). -/
def generateUniqueName (s : RState) (originalName : String) : String × RState :=
  match vmGet s.variableMap originalName with
  | some n => (n, s)
  | none =>
    if originalName = "i" ∨ originalName = "j" ∨ originalName = "k" ∨
        originalName = "index" ∨ originalName = "key" ∨ originalName = "value" then
      (originalName, s)
    else
      let newName := "_" ++ originalName ++ "_" ++ toString s.counter
      (newName, ⟨vmSet s.variableMap originalName newName, s.counter + 1⟩)

mutual
/- `processNode` of the renamer.  Child fields are processed in the
   evaluation order of the source's object literals.  An `Identifier` is
   renamed when its name (never containing a `.`) has a mapping; the
   `MemberExpression` case processes both `object` and `property`
   recursively; a `FunctionDeclaration` keeps its name and parameter
   list and only processes its body. -/
def renameNode (s : RState) : MNode → MNode × RState
  | .VariableDeclaration kind name init =>
    let r := generateUniqueName s name
    (match init with
     | some e =>
       let re := renameNode r.2 e
       (.VariableDeclaration kind r.1 (some re.1), re.2)
     | none => (.VariableDeclaration kind r.1 none, r.2))
  | .Identifier name =>
    if name.toList.contains '.' then (.Identifier name, s)
    else
      (match vmGet s.variableMap name with
       | some mapped => (.Identifier mapped, s)
       | none => (.Identifier name, s))
  | .FunctionDeclaration name params body =>
    let rb := renameNode s body
    (.FunctionDeclaration name params rb.1, rb.2)
  | .CallExpression callee args =>
    let rc := renameNode s callee
    let ra := renameList rc.2 args
    (.CallExpression rc.1 ra.1, ra.2)
  | .MemberExpression obj prop computed =>
    let ro := renameNode s obj
    let rp := renameNode ro.2 prop
    (.MemberExpression ro.1 rp.1 computed, rp.2)
  | .BinaryExpression op l r =>
    let rl := renameNode s l
    let rr := renameNode rl.2 r
    (.BinaryExpression op rl.1 rr.1, rr.2)
  | .UnaryExpression op a =>
    let ra := renameNode s a
    (.UnaryExpression op ra.1, ra.2)
  | .BlockStatement body =>
    let rb := renameList s body
    (.BlockStatement rb.1, rb.2)
  | .Program body =>
    let rb := renameList s body
    (.Program rb.1, rb.2)
  | .IfStatement test consequent alternate =>
    let rt := renameNode s test
    let rc := renameNode rt.2 consequent
    (match alternate with
     | some a =>
       let ra := renameNode rc.2 a
       (.IfStatement rt.1 rc.1 (some ra.1), ra.2)
     | none => (.IfStatement rt.1 rc.1 none, rc.2))
  | .WhileStatement test body =>
    let rt := renameNode s test
    let rb := renameNode rt.2 body
    (.WhileStatement rt.1 rb.1, rb.2)
  | .ForStatement init test update body =>
    -- object literal order: test, body, init, update
    let rt := renameOpt s test
    let rb := renameNode rt.2 body
    let ri := renameOpt rb.2 init
    let ru := renameOpt ri.2 update
    (.ForStatement ri.1 rt.1 ru.1 rb.1, ru.2)
  | .ReturnStatement argument =>
    (match argument with
     | some a =>
       let ra := renameNode s a
       (.ReturnStatement (some ra.1), ra.2)
     | none => (.ReturnStatement none, s))
  | .ExpressionStatement e =>
    let re := renameNode s e
    (.ExpressionStatement re.1, re.2)
  | .Literal v => (.Literal v, s)

def renameOpt (s : RState) : Option MNode → Option MNode × RState
  | some n =>
    let r := renameNode s n
    (some r.1, r.2)
  | none => (none, s)

def renameList (s : RState) : List MNode → List MNode × RState
  | [] => ([], s)
  | n :: rest =>
    let r := renameNode s n
    let rr := renameList r.2 rest
    (r.1 :: rr.1, rr.2)
end

/- `VariableRenamerMiddleware.process`: run the traversal with a fresh
   table, then record a `VARIABLES_RENAMED` warning when anything was
   renamed. -/
def renamerProcess (ast : MNode) (ctx : Ctx) : MNode × Ctx :=
  let r := renameNode ⟨[], 0⟩ ast
  if r.2.variableMap.length > 0 then
    (r.1, pushWarning ctx
      ("Renamed " ++ toString r.2.variableMap.length ++ " variables to avoid conflicts")
      "VARIABLES_RENAMED")
  else (r.1, ctx)

/-- C8: the claim (and the code's own comment, "Only rename if it's not a
function name or property name") says member-access property identifiers
are never renamed.  The `MemberExpression` case of the renamer processes
`node.property` with `processNode`, and the `Identifier` guard
`!node.name.includes('.')` is vacuous for plain names, so a property
identifier whose name collides with an already-renamed variable *is*
renamed: after `let x = 1`, the program `obj.x;` comes out as
`obj._x_0;`.  This theorem evaluates the renamer at that failing input
(function names are indeed left unchanged, as the enclosing
`FunctionDeclaration` case shows). -/
theorem c8_renamer_renames_member_property :
    renamerProcess
      (.Program
        [.FunctionDeclaration "f" ["p"]
          (.BlockStatement
            [.VariableDeclaration "let" "x" (some (.Literal (.num 1))),
             .ExpressionStatement
               (.MemberExpression (.Identifier "obj") (.Identifier "x") false)])])
      ⟨[], []⟩ =
    (.Program
      [.FunctionDeclaration "f" ["p"]
        (.BlockStatement
          [.VariableDeclaration "let" "_x_0" (some (.Literal (.num 1))),
           .ExpressionStatement
             (.MemberExpression (.Identifier "obj") (.Identifier "_x_0") false)])],
     ⟨[], [⟨"Renamed 1 variables to avoid conflicts", "VARIABLES_RENAMED"⟩]⟩) :=
  rfl

/- A middleware pass as the `MiddlewareManager` invokes it: an AST and
   the shared context in, a processed AST out (the context is mutated by
   reference in the source; here it is returned). -/
abbrev Pass := MNode → Ctx → MNode × Ctx

/- `this.middlewares`, a `Map<string, Middleware>`, embedded as its
   lookup function (`getMiddleware`). -/
def applyMiddleware (reg : String → Option Pass) (ast : MNode)
    (names : List String) (ctx : Ctx) : MNode × Ctx :=
  match names with
  | [] => (ast, ctx)
  | name :: rest =>
    match reg name with
    | some mw =>
      let r := mw ast ctx
      applyMiddleware reg r.1 rest r.2
    | none =>
      applyMiddleware reg ast rest
        (pushWarning ctx
          ("Middleware " ++ String.singleton (Char.ofNat 39) ++ name ++
            String.singleton (Char.ofNat 39) ++ " not found")
          "MIDDLEWARE_NOT_FOUND")

def notFoundWarning (name : String) : CompMsg :=
  ⟨"Middleware " ++ String.singleton (Char.ofNat 39) ++ name ++
    String.singleton (Char.ofNat 39) ++ " not found", "MIDDLEWARE_NOT_FOUND"⟩

/-- C9: `applyMiddleware` runs the registered passes in exactly the listed
order, threading each pass's output AST (and context) into the next; a
listed name with no registered middleware leaves the AST unchanged at that
step and appends exactly one `MIDDLEWARE_NOT_FOUND` warning; in
particular, when no listed name is registered the AST comes back
untouched with one warning per name, in order. -/
theorem c9_applyMiddleware_order_threading_warnings :
    (∀ (reg : String → Option Pass) (ast : MNode) (ctx : Ctx),
      applyMiddleware reg ast [] ctx = (ast, ctx)) ∧
    (∀ (reg : String → Option Pass) (ast : MNode) (ctx : Ctx)
        (name : String) (rest : List String) (mw : Pass),
      reg name = some mw →
      applyMiddleware reg ast (name :: rest) ctx =
        applyMiddleware reg (mw ast ctx).1 rest (mw ast ctx).2) ∧
    (∀ (reg : String → Option Pass) (ast : MNode) (ctx : Ctx)
        (name : String) (rest : List String),
      reg name = none →
      applyMiddleware reg ast (name :: rest) ctx =
        applyMiddleware reg ast rest
          { ctx with warnings := ctx.warnings ++ [notFoundWarning name] }) ∧
    (∀ (reg : String → Option Pass) (ast : MNode) (ctx : Ctx)
        (names : List String),
      (∀ n ∈ names, reg n = none) →
      applyMiddleware reg ast names ctx =
        (ast, { ctx with warnings := ctx.warnings ++ names.map notFoundWarning })) := by
  refine ⟨fun reg ast ctx => rfl, ?_, ?_, ?_⟩
  · intro reg ast ctx name rest mw h
    rw [applyMiddleware, h]
  · intro reg ast ctx name rest h
    rw [applyMiddleware, h]
    rfl
  · intro reg ast ctx names
    induction names generalizing ctx with
    | nil => intro _; simp [applyMiddleware]
    | cons name rest ih =>
      intro hall
      rw [applyMiddleware, hall name (by simp)]
      dsimp only
      rw [ih _ (fun n hn => hall n (by simp [hn]))]
      simp [pushWarning, notFoundWarning]

/-- Witness for the C9 theorem: an empty registry and two listed names;
the AST survives untouched and the two warnings appear in list order. -/
theorem c9_applyMiddleware_witness :
    applyMiddleware (fun _ => none) (.Program []) ["variable-renamer", "hoister"] ⟨[], []⟩ =
      (.Program [], ⟨[], [notFoundWarning "variable-renamer", notFoundWarning "hoister"]⟩) := by
  have h := c9_applyMiddleware_order_threading_warnings.2.2.2 (fun _ => none)
    (.Program []) ⟨[], []⟩ ["variable-renamer", "hoister"] (fun n _ => rfl)
  simpa using h

end Middleware

/-!
## MacroRuntime (src/src/middleware/hoister.ts, `MacroRuntime` class)

Inline macro processing on raw text: `processInlineMacros` rewrites every
occurrence of the pattern `@name(args)` (the regex `@(\w+)\(([^)]*)\)` with
the `g` flag) through a callback that parses the arguments, evaluates the
macro and splices in `String(result)`, keeping the matched text verbatim
when evaluation throws.  Strings are embedded as `List Char`; a JavaScript
function value is embedded as `MacroFn` with `Except.error` modelling a
thrown exception; the two `Map`s `builtinMacros`/`customMacros` are
embedded as lookup functions `String → Option MacroFn`.
-/

namespace MacroRt

/- A finite JavaScript number (`Rat`: every numeric literal accepted by the
argument grammar denotes a decimal rational; IEEE-754 rounding is not
modelled) or one of the two infinities.  `NaN` never inhabits a value: the
`isNaN` guard in `parseMacroArgument` filters it out before a value is
built, so it is modelled as `none` at the parsing stage. -/
inductive JsNum where
  | finite (q : Rat)
  | posInf
  | negInf
deriving DecidableEq

/- A JavaScript runtime value as handled by `MacroRuntime`: the argument
parser produces strings, numbers and booleans, and macro results are
converted back to text with `String(result)`. -/
inductive JsVal where
  | str (s : String)
  | num (n : JsNum)
  | bool (b : Bool)
deriving DecidableEq

/- A macro function value (entries of `builtinMacros` / `customMacros`):
`Except.error` models a thrown exception. -/
abbrev MacroFn := List JsVal → Except String JsVal

/- The regex word class `\w` = `[A-Za-z0-9_]`. -/
def isWordChar (c : Char) : Bool :=
  ('a' ≤ c && c ≤ 'z') || ('A' ≤ c && c ≤ 'Z') || ('0' ≤ c && c ≤ '9') || c = '_'

/- JavaScript whitespace as recognised by `String.prototype.trim` and by
`Number`, restricted to the ASCII range (space, tab, LF, CR, VT, FF; the
Unicode space characters are outside the model). -/
def isJsSpace (c : Char) : Bool :=
  c = ' ' || c = '\t' || c = '\n' || c = '\r' || c = Char.ofNat 11 || c = Char.ofNat 12

/- `s.trim()` on a character list. -/
def jsTrim (cs : List Char) : List Char :=
  ((cs.dropWhile isJsSpace).reverse.dropWhile isJsSpace).reverse

def isDecDigit (c : Char) : Bool :=
  '0' ≤ c && c ≤ '9'

/- Value of a block of decimal digits. -/
def digitsVal (ds : List Char) : Nat :=
  ds.foldl (fun a c => a * 10 + (c.toNat - 48)) 0

def hexDigitVal (c : Char) : Option Nat :=
  if isDecDigit c then some (c.toNat - 48)
  else if 'a' ≤ c && c ≤ 'f' then some (c.toNat - 87)
  else if 'A' ≤ c && c ≤ 'F' then some (c.toNat - 55)
  else none

def binDigitVal (c : Char) : Option Nat :=
  if c = '0' then some 0 else if c = '1' then some 1 else none

def octDigitVal (c : Char) : Option Nat :=
  if '0' ≤ c && c ≤ '7' then some (c.toNat - 48) else none

/- Value of a non-empty digit block in the given base; `none` if any
character is not a digit of the base (or the block is empty). -/
def radixVal (base : Nat) (dig : Char → Option Nat) (ds : List Char) : Option Nat :=
  if ds.isEmpty then none
  else ds.foldl (fun a c =>
    match a, dig c with
    | some n, some d => some (n * base + d)
    | _, _ => none) (some 0)

/- The optional exponent part of a decimal literal (`e`/`E`, optional sign,
one or more digits), applied to an already-parsed mantissa.  Trailing
characters that do not form an exponent make the whole literal `NaN`. -/
def jsExpPart (mant : Rat) (cs : List Char) : Option Rat :=
  match cs with
  | [] => some mant
  | c :: rest =>
    if c = 'e' || c = 'E' then
      let p : Bool × List Char :=
        match rest with
        | '+' :: ds => (false, ds)
        | '-' :: ds => (true, ds)
        | ds => (false, ds)
      if !p.2.isEmpty && p.2.all isDecDigit then
        some (if p.1 then mant / (10 : Rat) ^ digitsVal p.2
              else mant * (10 : Rat) ^ digitsVal p.2)
      else none
    else none

/- `StrUnsignedDecimalLiteral` without the `Infinity` alternative:
`digits [. digits] [exp]`, `. digits [exp]`, `digits . [exp]`. -/
def jsUnsignedDec (cs : List Char) : Option Rat :=
  let ip := cs.takeWhile isDecDigit
  let r1 := cs.dropWhile isDecDigit
  match r1 with
  | '.' :: r2 =>
    let fp := r2.takeWhile isDecDigit
    let r3 := r2.dropWhile isDecDigit
    if ip.isEmpty && fp.isEmpty then none
    else jsExpPart ((digitsVal ip : Rat) + (digitsVal fp : Rat) / (10 : Rat) ^ fp.length) r3
  | _ =>
    if ip.isEmpty then none
    else jsExpPart (digitsVal ip : Rat) r1

/- A signed decimal tail: `Infinity` or an unsigned decimal literal,
negated when `neg` is set. -/
def jsSignedTail (cs : List Char) (neg : Bool) : Option JsNum :=
  if cs = "Infinity".toList then
    some (if neg then JsNum.negInf else JsNum.posInf)
  else
    (jsUnsignedDec cs).map (fun q => JsNum.finite (if neg then -q else q))

/- `Number(arg)` on already-trimmed text; `none` models `NaN`.  The empty
string converts to `0`; a sign is only allowed before a decimal literal or
`Infinity`; `0x`/`0b`/`0o` prefixes introduce unsigned non-decimal integer
literals. -/
def jsNumber (cs : List Char) : Option JsNum :=
  match cs with
  | [] => some (JsNum.finite 0)
  | '+' :: rest => jsSignedTail rest false
  | '-' :: rest => jsSignedTail rest true
  | '0' :: c :: rest =>
    if c = 'x' || c = 'X' then (radixVal 16 hexDigitVal rest).map (fun n => JsNum.finite (n : Rat))
    else if c = 'b' || c = 'B' then (radixVal 2 binDigitVal rest).map (fun n => JsNum.finite (n : Rat))
    else if c = 'o' || c = 'O' then (radixVal 8 octDigitVal rest).map (fun n => JsNum.finite (n : Rat))
    else jsSignedTail cs false
  | _ => jsSignedTail cs false

/- Decimal rendering of a finite JS number, as produced by `String(x)`.
Integers print exactly; a non-integral value prints with the minimal
number of decimal places that makes it exact.  Every number produced by
`jsNumber` has a power-of-ten denominator, for which this matches the
JavaScript output of the literally denoted value (double rounding and the
exponent notation used beyond 1e21 are outside the model; other rationals
take an unreachable fallback branch). -/
def numToString (q : Rat) : String :=
  if q.den = 1 then toString q.num
  else
    match (List.range 400).find? (fun k => (q * (10 : Rat) ^ k).den = 1) with
    | some k =>
      let m := (q * (10 : Rat) ^ k).num.natAbs
      let fs := toString (m % 10 ^ k)
      (if q < 0 then "-" else "") ++ toString (m / 10 ^ k) ++ "." ++
        String.mk (List.replicate (k - fs.length) '0') ++ fs
    | none => toString q.num ++ "/" ++ toString q.den

/- `String(result)` on a runtime value. -/
def jsToString : JsVal → String
  | JsVal.str s => s
  | JsVal.num (JsNum.finite q) => numToString q
  | JsVal.num JsNum.posInf => "Infinity"
  | JsVal.num JsNum.negInf => "-Infinity"
  | JsVal.bool true => "true"
  | JsVal.bool false => "false"

/- `MacroRuntime.parseMacroArgument`: a double-quoted argument strips its
quotes; otherwise text whose `Number` conversion is not `NaN` becomes that
number; then `true`/`false`; anything else stays as identifier text. -/
def parseMacroArgument (arg : List Char) : JsVal :=
  if arg.head? = some (Char.ofNat 34) && arg.getLast? = some (Char.ofNat 34) then
    JsVal.str (String.mk ((arg.drop 1).dropLast))
  else
    match jsNumber arg with
    | some n => JsVal.num n
    | none =>
      if arg = "true".toList then JsVal.bool true
      else if arg = "false".toList then JsVal.bool false
      else JsVal.str (String.mk arg)

/- The character loop of `MacroRuntime.parseMacroArguments`.  `prev` is the
previous character of the input (`none` at index 0, for the escape test
`i === 0 || argsString[i-1] !== backslash`); `current` is the accumulator
`currentArg`; a comma outside quotes at paren depth 0 pushes the parsed
trimmed accumulator (even when it is empty, exactly as the source does);
at the end the accumulator is pushed only when its trim is non-empty. -/
def parseArgsLoop : List Char → Option Char → List Char → Bool → Int → List JsVal → List JsVal
  | [], _, current, _, _, acc =>
    if (jsTrim current).isEmpty then acc
    else acc ++ [parseMacroArgument (jsTrim current)]
  | c :: rest, prev, current, inQuotes, parenDepth, acc =>
    if c = Char.ofNat 34 && prev != some (Char.ofNat 92) then
      parseArgsLoop rest (some c) (current ++ [c]) (!inQuotes) parenDepth acc
    else if c = '(' && !inQuotes then
      parseArgsLoop rest (some c) (current ++ [c]) inQuotes (parenDepth + 1) acc
    else if c = ')' && !inQuotes then
      parseArgsLoop rest (some c) (current ++ [c]) inQuotes (parenDepth - 1) acc
    else if c = ',' && !inQuotes && parenDepth == 0 then
      parseArgsLoop rest (some c) [] inQuotes parenDepth
        (acc ++ [parseMacroArgument (jsTrim current)])
    else
      parseArgsLoop rest (some c) (current ++ [c]) inQuotes parenDepth acc

/- `MacroRuntime.parseMacroArguments`. -/
def parseMacroArguments (argsString : List Char) : List JsVal :=
  if (jsTrim argsString).isEmpty then []
  else parseArgsLoop argsString none [] false 0 []

/- `MacroRuntime.evaluateMacro`: built-in macros are consulted first, then
custom macros; an unknown name throws `Undefined macro: <name>`. -/
def evaluateMacro (builtins customs : String → Option MacroFn)
    (macroName : String) (args : List JsVal) : Except String JsVal :=
  match builtins macroName with
  | some f => f args
  | none =>
    match customs macroName with
    | some f => f args
    | none => Except.error ("Undefined macro: " ++ macroName)

/- Lifts a string-to-string function to a `MacroFn` taking its first
argument, as each built-in `(text: string) => ...` does: a missing first
argument (`undefined`) or a non-string one has none of the string methods
the body immediately calls, so those calls throw `TypeError`; extra
arguments are ignored. -/
def strArg1 (f : String → String) : MacroFn := fun args =>
  match args with
  | JsVal.str s :: _ => Except.ok (JsVal.str (f s))
  | _ => Except.error "TypeError"

/- The `camelCase` built-in body: `text.replace` with the global regex
`-([a-z])` and callback `(g) => g[1].toUpperCase()`: each dash followed by
a lowercase ASCII letter is replaced by the uppercased letter; matches do
not overlap and scanning is left to right. -/
def camelCaseChars : List Char → List Char
  | [] => []
  | '-' :: c :: rest =>
    if 'a' ≤ c && c ≤ 'z' then c.toUpper :: camelCaseChars rest
    else '-' :: camelCaseChars (c :: rest)
  | c :: rest => c :: camelCaseChars rest

/- `text.replace(/[A-Z]/g, letter => sep + letter.toLowerCase())`: the body
of the `snakeCase` (`sep = underscore`) and `kebabCase` (`sep = dash`)
built-ins. -/
def sepLowerChars (sep : Char) : List Char → List Char
  | [] => []
  | c :: rest =>
    if 'A' ≤ c && c ≤ 'Z' then sep :: c.toLower :: sepLowerChars sep rest
    else c :: sepLowerChars sep rest

def camelCase (s : String) : String :=
  String.mk (camelCaseChars s.toList)

/- `camel.charAt(0).toUpperCase() + camel.slice(1)` on the camelCased text
(`charAt(0)` of the empty string is the empty string). -/
def pascalCase (s : String) : String :=
  match (camelCase s).toList with
  | [] => ""
  | c :: rest => String.mk (c.toUpper :: rest)

/- The `builtinMacros` map filled by `registerBuiltinMacros`.
`toUpperCase`/`toLowerCase` are modelled on the ASCII range (the Unicode
case mappings are outside the model). -/
def builtinMacros : String → Option MacroFn := fun name =>
  if name = "upper" then some (strArg1 (fun s => String.mk (s.toList.map Char.toUpper)))
  else if name = "lower" then some (strArg1 (fun s => String.mk (s.toList.map Char.toLower)))
  else if name = "camelCase" then some (strArg1 camelCase)
  else if name = "pascalCase" then some (strArg1 pascalCase)
  else if name = "snakeCase" then some (strArg1 (fun s => String.mk (sepLowerChars '_' s.toList)))
  else if name = "kebabCase" then some (strArg1 (fun s => String.mk (sepLowerChars '-' s.toList)))
  else none

/- The tail of one match attempt of `@(\w+)\(([^)]*)\)` after the name has
been read: a literal `(`, then `[^)]*` (greedy, hence `takeWhile`), then a
literal `)`.  Returns `(name, argsString, matchedText, remaining)`. -/
def tryMatchTail (nm : List Char) (cs2 : List Char) :
    Option (List Char × List Char × List Char × List Char) :=
  match cs2 with
  | [] => none
  | c :: cs3 =>
    if c = '(' then
      let argsStr := cs3.takeWhile (fun x => x != ')')
      match cs3.dropWhile (fun x => x != ')') with
      | [] => none
      | c2 :: cs5 =>
        if c2 = ')' then
          some (nm, argsStr, '@' :: (nm ++ '(' :: (argsStr ++ [')'])), cs5)
        else none
    else none

/- One attempt of the regex `@(\w+)\(([^)]*)\)` anchored at the start of
`cs`: a literal `@`, then `\w+` (greedy; backtracking cannot help since the
following `(` is not a word character). -/
def tryMatchAt (cs : List Char) :
    Option (List Char × List Char × List Char × List Char) :=
  match cs with
  | [] => none
  | c :: cs1 =>
    if c = '@' then
      let nm := cs1.takeWhile isWordChar
      if nm.isEmpty then none
      else tryMatchTail nm (cs1.dropWhile isWordChar)
    else none

theorem tryMatchTail_rem_lt (nm cs2 : List Char)
    (out : List Char × List Char × List Char × List Char)
    (h : tryMatchTail nm cs2 = some out) : out.2.2.2.length < cs2.length := by
  cases cs2 with
  | nil => simp [tryMatchTail] at h
  | cons c cs3 =>
    simp only [tryMatchTail] at h
    by_cases hc : c = '('
    · rw [if_pos hc] at h
      cases hd : cs3.dropWhile (fun x => x != ')') with
      | nil => rw [hd] at h; exact absurd h (by simp)
      | cons c2 cs5 =>
        rw [hd] at h
        dsimp only at h
        by_cases hc2 : c2 = ')'
        · rw [if_pos hc2] at h
          have hlen : (c2 :: cs5).length ≤ cs3.length := by
            rw [← hd]
            exact (List.dropWhile_suffix (fun x => x != ')')).length_le
          have : out.2.2.2 = cs5 := by
            cases h
            rfl
          rw [this]
          simp only [List.length_cons] at hlen ⊢
          omega
        · rw [if_neg hc2] at h; exact absurd h (by simp)
    · rw [if_neg hc] at h; exact absurd h (by simp)

theorem tryMatchAt_rem_lt (cs nm a m rem : List Char)
    (h : tryMatchAt cs = some (nm, a, m, rem)) : rem.length < cs.length := by
  cases cs with
  | nil => simp [tryMatchAt] at h
  | cons c cs1 =>
    simp only [tryMatchAt] at h
    by_cases hc : c = '@'
    · rw [if_pos hc] at h
      by_cases hnm : (cs1.takeWhile isWordChar).isEmpty
      · rw [if_pos hnm] at h; exact absurd h (by simp)
      · rw [if_neg hnm] at h
        have h1 := tryMatchTail_rem_lt _ _ _ h
        have h2 : (cs1.dropWhile isWordChar).length ≤ cs1.length :=
          (List.dropWhile_suffix isWordChar).length_le
        simp only [List.length_cons]
        dsimp only at h1
        omega
    · rw [if_neg hc] at h; exact absurd h (by simp)

/- The replacement callback of `processInlineMacros`, try/catch included:
the arguments are parsed, the macro is evaluated, and the result is
spliced in as `String(result)`; if evaluation throws, the matched text is
returned verbatim. -/
def replaceOccurrence (builtins customs : String → Option MacroFn)
    (macroName argsString matchText : List Char) : List Char :=
  match evaluateMacro builtins customs (String.mk macroName) (parseMacroArguments argsString) with
  | Except.ok result => (jsToString result).toList
  | Except.error _ => matchText

/- `MacroRuntime.processInlineMacros`: `text.replace(pattern, callback)`
with a global regex scans left to right; at each position either the
pattern matches (the callback output is emitted and scanning resumes after
the match) or the current character is copied. -/
def processInlineMacros (builtins customs : String → Option MacroFn)
    (text : List Char) : List Char :=
  match htm : tryMatchAt text with
  | some (nm, argsStr, matched, remaining) =>
    replaceOccurrence builtins customs nm argsStr matched ++
      processInlineMacros builtins customs remaining
  | none =>
    match text with
    | [] => []
    | ch :: rest => ch :: processInlineMacros builtins customs rest
termination_by text.length
decreasing_by
  · exact tryMatchAt_rem_lt text nm argsStr matched remaining htm
  · simp

/- `true` when the inline-macro regex matches somewhere in the text. -/
def hasMacroOccurrence : List Char → Bool
  | [] => false
  | c :: rest => (tryMatchAt (c :: rest)).isSome || hasMacroOccurrence rest

theorem processInlineMacros_nil (builtins customs : String → Option MacroFn) :
    processInlineMacros builtins customs [] = [] := by
  rw [processInlineMacros]
  rfl

theorem processInlineMacros_match_eq (builtins customs : String → Option MacroFn)
    (text nm a m rem : List Char)
    (h : tryMatchAt text = some (nm, a, m, rem)) :
    processInlineMacros builtins customs text =
      replaceOccurrence builtins customs nm a m ++
        processInlineMacros builtins customs rem := by
  rw [processInlineMacros]
  split
  · rename_i nm2 a2 m2 rem2 htm
    rw [h] at htm
    simp only [Option.some.injEq, Prod.mk.injEq] at htm
    obtain ⟨rfl, rfl, rfl, rfl⟩ := htm
    rfl
  · rename_i htm
    rw [h] at htm
    exact absurd htm (by simp)

theorem processInlineMacros_nomatch (builtins customs : String → Option MacroFn)
    (ch : Char) (rest : List Char)
    (h : tryMatchAt (ch :: rest) = none) :
    processInlineMacros builtins customs (ch :: rest) =
      ch :: processInlineMacros builtins customs rest := by
  rw [processInlineMacros]
  split
  · rename_i nm2 a2 m2 rem2 htm
    rw [h] at htm
    exact absurd htm (by simp)
  · rfl

theorem processInlineMacros_no_occurrence (builtins customs : String → Option MacroFn) :
    ∀ text : List Char, hasMacroOccurrence text = false →
      processInlineMacros builtins customs text = text := by
  intro text
  induction text with
  | nil => intro _; exact processInlineMacros_nil builtins customs
  | cons ch rest ih =>
    intro h
    simp only [hasMacroOccurrence, Bool.or_eq_false_iff] at h
    obtain ⟨h1, h2⟩ := h
    have htm : tryMatchAt (ch :: rest) = none := by
      cases hx : tryMatchAt (ch :: rest) with
      | none => rfl
      | some v => rw [hx] at h1; simp at h1
    rw [processInlineMacros_nomatch builtins customs ch rest htm, ih h2]

/-- C10: `processInlineMacros` rewrites exactly the occurrences of the
inline-macro pattern `@name(args)`.  (1) A text in which the pattern
matches nowhere is returned unchanged.  (2) Where the pattern matches, the
output is the callback result followed by the processed remainder.
(3) When the macro evaluates without error, the callback result is
`String(result)`.  (4) When evaluation throws, the matched text is kept
exactly as written.  (5) In particular, a name that is neither a built-in
nor a registered custom macro throws `Undefined macro: <name>` (and its
occurrences are therefore kept verbatim by (4) and (2)). -/
theorem c10_processInlineMacros_replace_or_keep :
    (∀ (builtins customs : String → Option MacroFn) (text : List Char),
        hasMacroOccurrence text = false →
        processInlineMacros builtins customs text = text) ∧
    (∀ (builtins customs : String → Option MacroFn) (text nm argsStr matched rem : List Char),
        tryMatchAt text = some (nm, argsStr, matched, rem) →
        processInlineMacros builtins customs text =
          replaceOccurrence builtins customs nm argsStr matched ++
            processInlineMacros builtins customs rem) ∧
    (∀ (builtins customs : String → Option MacroFn) (nm argsStr matched : List Char) (v : JsVal),
        evaluateMacro builtins customs (String.mk nm) (parseMacroArguments argsStr) =
          Except.ok v →
        replaceOccurrence builtins customs nm argsStr matched = (jsToString v).toList) ∧
    (∀ (builtins customs : String → Option MacroFn) (nm argsStr matched : List Char) (e : String),
        evaluateMacro builtins customs (String.mk nm) (parseMacroArguments argsStr) =
          Except.error e →
        replaceOccurrence builtins customs nm argsStr matched = matched) ∧
    (∀ (builtins customs : String → Option MacroFn) (nm : String) (args : List JsVal),
        builtins nm = none → customs nm = none →
        evaluateMacro builtins customs nm args =
          Except.error ("Undefined macro: " ++ nm)) := by
  refine ⟨?_, ?_, ?_, ?_, ?_⟩
  · exact fun builtins customs => processInlineMacros_no_occurrence builtins customs
  · exact fun builtins customs text nm a m rem h =>
      processInlineMacros_match_eq builtins customs text nm a m rem h
  · intro builtins customs nm a m v h
    unfold replaceOccurrence
    rw [h]
  · intro builtins customs nm a m e h
    unfold replaceOccurrence
    rw [h]
  · intro builtins customs nm args h1 h2
    unfold evaluateMacro
    rw [h1, h2]

/-- Witness for the C10 theorem: a text without the pattern survives
unchanged; `@upper("ab")!` decomposes into the callback output for the
match plus the processed tail, with the callback yielding `AB`; the
unknown name `nope` throws `Undefined macro: nope`, so its occurrence is
kept verbatim. -/
theorem c10_processInlineMacros_replace_or_keep_witness :
    processInlineMacros builtinMacros (fun _ => none) "hello world".toList =
      "hello world".toList ∧
    processInlineMacros builtinMacros (fun _ => none) "@upper(\"ab\")!".toList =
      replaceOccurrence builtinMacros (fun _ => none) "upper".toList "\"ab\"".toList
          "@upper(\"ab\")".toList ++
        processInlineMacros builtinMacros (fun _ => none) "!".toList ∧
    replaceOccurrence builtinMacros (fun _ => none) "upper".toList "\"ab\"".toList
        "@upper(\"ab\")".toList = (jsToString (JsVal.str "AB")).toList ∧
    replaceOccurrence builtinMacros (fun _ => none) "nope".toList "".toList
        "@nope()".toList = "@nope()".toList ∧
    evaluateMacro builtinMacros (fun _ => none) "nope" [] =
      Except.error ("Undefined macro: " ++ "nope") :=
  ⟨c10_processInlineMacros_replace_or_keep.1 builtinMacros (fun _ => none)
      "hello world".toList (by rfl),
   c10_processInlineMacros_replace_or_keep.2.1 builtinMacros (fun _ => none)
      "@upper(\"ab\")!".toList "upper".toList "\"ab\"".toList "@upper(\"ab\")".toList
      "!".toList (by rfl),
   c10_processInlineMacros_replace_or_keep.2.2.1 builtinMacros (fun _ => none)
      "upper".toList "\"ab\"".toList "@upper(\"ab\")".toList (JsVal.str "AB") (by rfl),
   c10_processInlineMacros_replace_or_keep.2.2.2.1 builtinMacros (fun _ => none)
      "nope".toList "".toList "@nope()".toList "Undefined macro: nope" (by rfl),
   c10_processInlineMacros_replace_or_keep.2.2.2.2 builtinMacros (fun _ => none)
      "nope" [] rfl rfl⟩

end MacroRt
